import Mathlib

/-!
# Verification of the SillyTavern-MCP-Client protocol/state core

This file gives a shallow embedding of the two state-bearing components of the
repository and proves properties of them:

* `MCPClient` (src/src/mcp-client.ts, current version): the connection manager,
  tool cache and server-registry boundary.  Its mutable class state
  (`#connectedServers`, `#serverTools`) becomes the explicit record `McpState`;
  every method becomes a pure function from a state (plus the remote side's
  responses, passed in as explicit oracle arguments) to a new state, the list
  of host register/unregister calls it issues, and its returned value.

* `McpSseClient` (the SSE push-channel client): modelled as a small-step event
  system `stepC` over `ChannelState`.  Requests are ledger entries identified by
  their position of issuance; their JSON-RPC correlation id is the value of the
  clock at issue time (the source uses `Date.now()`, so two requests issued in
  the same millisecond share an id), and timers are explicit records with an
  owner and an expiry instant.

The host collaborator (`registerFunctionTool` / `unregisterFunctionTool`) is
modelled by the call trace each operation emits; the set of registered tool ids
is obtained by folding that trace with `applyCalls`.
-/

/-- A tool descriptor as cached by the client (`McpTool` in mcp-client.ts).
`enabled` models the optional `_enabled` field: `none` is an absent field,
which is falsy in the registration filter, exactly like `some false`.
The `description`/`inputSchema` fields only feed registration metadata and
are not modelled. -/
structure McpTool where
  name : String
  enabled : Option Bool
deriving DecidableEq, Repr

/-- Transport kind of a server configuration (`ServerConfig.type`). The current
MCPClient never branches on the configuration, so the remaining fields are inert. -/
inductive ConfigType
  | stdio
  | sse
deriving DecidableEq, Repr

/-- A server configuration (`ServerConfig` in mcp-client.ts). -/
structure ServerConfig where
  typ : ConfigType
deriving DecidableEq, Repr

/-- One element of the `GET /servers` response (`ServerData`); its
`cachedTools` field is never read by the client and is not modelled. -/
structure ServerEntry where
  name : String
  config : ServerConfig
  enabled : Bool
deriving DecidableEq, Repr

/-- The outcomes of the remote calls one loop iteration of the bulk operations
can make, supplied by the environment: whether `/start` reports success,
whether `/stop` reports success, whether `/reload-tools` reports success, and
the body of a `/list-tools` response (`none` models a non-OK status, a thrown
fetch, or a non-array body, in which case the source keeps `tools = []`). -/
structure RemoteFate where
  startOk : Bool
  stopOk : Bool
  reloadOk : Bool
  resp : Option (List McpTool)
deriving Repr

/-- A call issued against the host tool collaborator. -/
inductive HostCall
  | register (serverName toolName : String)
  | unregister (serverName toolName : String)
deriving DecidableEq, Repr

/-- The composite registration id (`mcp_<server>_<tool>` in `#registerMcpTool`). -/
def toolId (server tool : String) : String :=
  "mcp_" ++ server ++ "_" ++ tool

/-- Host-side effect of one call: registering inserts the id (a re-register
replaces the entry, leaving the id set unchanged), unregistering removes it. -/
def applyCall (r : List String) : HostCall → List String
  | .register s t => if toolId s t ∈ r then r else r ++ [toolId s t]
  | .unregister s t => r.filter (fun x => x ≠ toolId s t)

/-- Host-side registered-id set after a trace of calls. -/
def applyCalls (r : List String) (cs : List HostCall) : List String :=
  cs.foldl applyCall r

/-- Association-list lookup (JS `Map.get`). -/
def lookupA {κ β : Type} [DecidableEq κ] : List (κ × β) → κ → Option β
  | [], _ => none
  | (k, v) :: rest, key => if k = key then some v else lookupA rest key

/-- Association-list insert-or-replace (JS `Map.set`). -/
def setA {κ β : Type} [DecidableEq κ] : List (κ × β) → κ → β → List (κ × β)
  | [], key, v => [(key, v)]
  | (k, w) :: rest, key, v =>
    if k = key then (key, v) :: rest else (k, w) :: setA rest key v

/-- Association-list removal (JS `Map.delete`). -/
def eraseA {κ β : Type} [DecidableEq κ] : List (κ × β) → κ → List (κ × β)
  | [], _ => []
  | (k, v) :: rest, key =>
    if k = key then eraseA rest key else (k, v) :: eraseA rest key

/-- The mutable class state of `MCPClient`, together with our model of the
remote configuration store (`registry`, the contents behind `GET /servers`,
which `addServer` extends on a successful POST) and the host setting
`extensionSettings.mcp.enabled`. -/
structure McpState where
  mcpEnabled : Bool
  registry : List (String × ServerConfig)
  connected : List (String × ServerConfig)
  serverTools : List (String × List McpTool)
deriving DecidableEq, Repr

/-- `MCPClient.isConnected`. -/
def isConnected (st : McpState) (name : String) : Bool :=
  (lookupA st.connected name).isSome

/-- `MCPClient.#fetchTools`: always stores the fetched list (possibly empty) in
the cache and reports whether it was non-empty.  `resp = none` covers a non-OK
response, a thrown fetch, and a non-array body, all of which leave `tools`
at its `[]` initial value in the source. -/
def fetchTools (st : McpState) (serverName : String) (resp : Option (List McpTool)) :
    McpState × Bool :=
  let tools := resp.getD []
  ({ st with serverTools := setA st.serverTools serverName tools },
   decide (tools ≠ []))

/-- `MCPClient.registerTools`: registers every cached tool of the server whose
`_enabled` flag is truthy (an absent flag is falsy). -/
def registerTools (st : McpState) (name : String) : McpState × List HostCall :=
  match lookupA st.serverTools name with
  | none => (st, [])
  | some tools =>
    (st, (tools.filter (fun t => t.enabled = some true)).map
      (fun t => .register name t.name))

/-- `MCPClient.connect`: on a successful `/start` the server is recorded as
connected; on failure (non-OK or thrown) nothing changes and `false` returns.
No tools are registered by `connect` itself. -/
def connect (st : McpState) (name : String) (cfg : ServerConfig) (startOk : Bool) :
    McpState × Bool :=
  if startOk then
    ({ st with connected := setA st.connected name cfg }, true)
  else (st, false)

/-- `MCPClient.#unregisterServerTools`: unregisters every cached tool of the
server and drops the cache entry. -/
def unregisterServerTools (st : McpState) (serverName : String) :
    McpState × List HostCall :=
  let tools := (lookupA st.serverTools serverName).getD []
  ({ st with serverTools := eraseA st.serverTools serverName },
   tools.map (fun t => .unregister serverName t.name))

/-- `MCPClient.disconnect`: only when the remote `/stop` reports success does
it remove the connection entry and unregister the cached tools; a non-OK
response or a thrown fetch returns `false` with no local change. -/
def disconnect (st : McpState) (name : String) (stopOk : Bool) :
    McpState × List HostCall × Bool :=
  if stopOk then
    let st1 := { st with connected := eraseA st.connected name }
    let (st2, cs) := unregisterServerTools st1 name
    (st2, cs, true)
  else (st, [], false)

/-- `MCPClient.addServer`: on a successful POST the registry gains the entry;
if MCP is enabled the client then auto-connects (ignoring the result), fetches
tools when not cached (ignoring the result), registers the enabled tools, and
returns `true` regardless of the connect outcome.  A failed POST returns
`false` and changes nothing. -/
def addServer (st : McpState) (name : String) (cfg : ServerConfig)
    (addOk startOk : Bool) (resp : Option (List McpTool)) :
    McpState × List HostCall × Bool :=
  if addOk then
    let st0 := { st with registry := setA st.registry name cfg }
    if st0.mcpEnabled then
      let (st1, _) := connect st0 name cfg startOk
      let st2 :=
        if (lookupA st1.serverTools name).isSome then st1
        else (fetchTools st1 name resp).1
      let (st3, cs) := registerTools st2 name
      (st3, cs, true)
    else (st0, [], true)
  else (st, [], false)

/-- `MCPClient.callTool` (HTTP transport): rejects before issuing any HTTP
dispatch when the server is not connected; otherwise issues exactly one
`/call-tool` request, whose boolean outcome and payload the oracle supplies.
The emitted list records the HTTP dispatches of the call. -/
def callTool (st : McpState) (serverName toolName : String)
    (respOk : Bool) (result : String) :
    McpState × List (String × String) × Except String String :=
  if isConnected st serverName then
    if respOk then (st, [(serverName, toolName)], .ok result)
    else (st, [(serverName, toolName)], .error "call-tool request failed")
  else
    (st, [], .error ("MCP server " ++ serverName ++ " is not connected."))

/-- `MCPClient.getServerTools`: returns the cached list when present without
fetching; otherwise fetches (which always caches the result, possibly `[]`)
and returns the cache entry on success, `none` when the fetch found no tools.
The middle component reports whether a fetch was performed. -/
def getServerTools (st : McpState) (serverName : String)
    (resp : Option (List McpTool)) :
    McpState × Bool × Option (List McpTool) :=
  match lookupA st.serverTools serverName with
  | some cached => (st, false, some cached)
  | none =>
    let (st1, succ) := fetchTools st serverName resp
    if succ then (st1, true, lookupA st1.serverTools serverName)
    else (st1, true, none)

/-- The per-tool loop body of `MCPClient.updateDisabledTools`: each iteration
reads the tool's old `_enabled` flag, writes the new one, and when `doReg`
holds (MCP enabled and the server connected) unregisters on a true-to-false
flip and registers on a false-to-true flip. -/
def updateToolsLoop (serverName : String) (disabled : List String) (doReg : Bool) :
    List McpTool → List McpTool × List HostCall
  | [] => ([], [])
  | t :: rest =>
    let was := t.enabled = some true
    let nowEn := ¬ t.name ∈ disabled
    let t' : McpTool := { t with enabled := some (decide nowEn) }
    let c : List HostCall :=
      if doReg then
        if was ∧ ¬ nowEn then [.unregister serverName t.name]
        else if ¬ was ∧ nowEn then [.register serverName t.name]
        else []
      else []
    let (rest', cs) := updateToolsLoop serverName disabled doReg rest
    (t' :: rest', c ++ cs)

/-- `MCPClient.updateDisabledTools`: when the POST succeeds, rewrites the
cached flags of the server's tools and performs the per-flip
register/unregister calls guarded by MCP being enabled and the server being
connected; a failed POST changes nothing. A server with no cache entry gets
no updates and no calls. -/
def updateDisabledTools (st : McpState) (serverName : String)
    (disabled : List String) (postOk : Bool) :
    McpState × List HostCall × Bool :=
  if postOk then
    match lookupA st.serverTools serverName with
    | none => (st, [], true)
    | some tools =>
      let doReg := st.mcpEnabled && isConnected st serverName
      let (tools', cs) := updateToolsLoop serverName disabled doReg tools
      ({ st with serverTools := setA st.serverTools serverName tools' }, cs, true)
  else (st, [], false)

/-- The per-server loop body of `MCPClient.updateDisabledServers`: disconnect a
server that should no longer be connected, connect-fetch-register one that
should be (ignoring the connect result), leave the rest alone. -/
def updateServersLoop (st : McpState) (disabled : List String) :
    List (ServerEntry × RemoteFate) → McpState × List HostCall
  | [] => (st, [])
  | (server, fate) :: rest =>
    let isDisabled := server.name ∈ disabled
    let isConn := isConnected st server.name
    let shouldBe := ¬ isDisabled ∧ st.mcpEnabled = true
    let (st1, cs1) :=
      if ¬ shouldBe ∧ isConn = true then
        let (s, cs, _) := disconnect st server.name fate.stopOk
        (s, cs)
      else if shouldBe ∧ ¬ isConn = true then
        let (s, _) := connect st server.name server.config fate.startOk
        let s2 := if (lookupA s.serverTools server.name).isSome then s
                  else (fetchTools s server.name fate.resp).1
        registerTools s2 server.name
      else (st, [])
    let (st2, cs2) := updateServersLoop st1 disabled rest
    (st2, cs1 ++ cs2)

/-- `MCPClient.updateDisabledServers`: when the POST of the disabled set
succeeds, reconciles every server of the subsequent `GET /servers` response
(supplied with its remote outcomes) against the new set; a failed POST
changes nothing. -/
def updateDisabledServers (st : McpState) (disabled : List String) (postOk : Bool)
    (servers : List (ServerEntry × RemoteFate)) :
    McpState × List HostCall × Bool :=
  if postOk then
    let (st', cs) := updateServersLoop st disabled servers
    (st', cs, true)
  else (st, [], false)

/-- The enable-branch loop body of `MCPClient.handleTools`: for each registry
server marked enabled, connect when not connected (ignoring the result),
fetch when not cached, and register the enabled tools. -/
def handleToolsOnLoop (st : McpState) :
    List (ServerEntry × RemoteFate) → McpState × List HostCall
  | [] => (st, [])
  | (server, fate) :: rest =>
    let (st1, cs1) :=
      if server.enabled then
        let s :=
          if isConnected st server.name then st
          else (connect st server.name server.config fate.startOk).1
        let s2 := if (lookupA s.serverTools server.name).isSome then s
                  else (fetchTools s server.name fate.resp).1
        registerTools s2 server.name
      else (st, [])
    let (st2, cs2) := handleToolsOnLoop st1 rest
    (st2, cs1 ++ cs2)

/-- The disable-branch loop body of `MCPClient.handleTools`: disconnect every
name of the snapshot taken before the loop, each with its own `/stop` outcome. -/
def handleToolsOffLoop (st : McpState) (stopFate : String → Bool) :
    List String → McpState × List HostCall
  | [] => (st, [])
  | name :: rest =>
    let (st1, cs1, _) := disconnect st name (stopFate name)
    let (st2, cs2) := handleToolsOffLoop st1 stopFate rest
    (st2, cs1 ++ cs2)

/-- `MCPClient.handleTools`: a no-op unless the stored setting already equals
the requested flag; enabling walks the registry servers, disabling walks a
snapshot of the connected names. -/
def handleTools (st : McpState) (enabled : Bool)
    (servers : List (ServerEntry × RemoteFate)) (stopFate : String → Bool) :
    McpState × List HostCall :=
  if st.mcpEnabled ≠ enabled then (st, [])
  else if enabled then handleToolsOnLoop st servers
  else handleToolsOffLoop st stopFate (st.connected.map (fun p => p.1))

/-- The loop body of `MCPClient.reloadAllTools`: for every server of the
`GET /servers` response (all registry servers, connected or not), a successful
`/reload-tools` is followed by a re-fetch (result ignored) and re-registration;
a failed reload only clears the success flag. -/
def reloadLoop (st : McpState) :
    List (ServerEntry × RemoteFate) → McpState × List HostCall × Bool
  | [] => (st, [], true)
  | (server, fate) :: rest =>
    let (st1, cs1, ok1) :=
      if fate.reloadOk then
        let (s, _) := fetchTools st server.name fate.resp
        let (s2, cs) := registerTools s server.name
        (s2, cs, true)
      else (st, [], false)
    let (st2, cs2, ok2) := reloadLoop st1 rest
    (st2, cs1 ++ cs2, ok1 && ok2)

/-- `MCPClient.reloadAllTools`: iterates the full `GET /servers` listing
(`listThrew = true` models the listing fetch throwing, which the outer catch
turns into `false` with no iteration). -/
def reloadAllTools (st : McpState) (listThrew : Bool)
    (servers : List (ServerEntry × RemoteFate)) :
    McpState × List HostCall × Bool :=
  if listThrew then (st, [], false)
  else reloadLoop st servers

/-- Modelled from the spec: the companion server-side plugin (the remote
registry behind `GET /servers/{name}/list-tools`, not part of src/) computes
each tool's `_enabled` flag in its list-tools response; per the spec's default
policy a tool is enabled unless the server or the tool was explicitly marked
disabled in the remote registry. -/
def remoteListTools (allTools : List String) (serverDisabled : Bool)
    (disabledTools : List String) : List McpTool :=
  allTools.map (fun n =>
    { name := n, enabled := some (decide (serverDisabled = false ∧ ¬ n ∈ disabledTools)) })

/-- The ways the promise of one `sendJsonRpcRequest` call can settle.
`resolvedSpecial` is the immediate resolution of the two administrative
methods on a successful dispatch; `rejectedDispatch` is the rejection raised
when the outbound POST itself fails (network error or non-OK status). -/
inductive Outcome
  | resolvedSpecial
  | resolvedCorrelated
  | rejectedError
  | rejectedTimeout
  | rejectedClosed
  | rejectedDispatch
deriving DecidableEq, Repr

/-- Lifecycle of one issued request: its outbound POST is in flight, it sits in
the pending map awaiting a correlated push message, or its promise settled. -/
inductive Status
  | inflight
  | waiting
  | settled (o : Outcome)
deriving DecidableEq, Repr

/-- Ledger entry for one `sendJsonRpcRequest` call.  `rid` is the JSON-RPC
correlation id, taken from the clock at issue time (`Date.now()` in the
source); `special` marks the two administrative methods. -/
structure Req where
  rid : Nat
  special : Bool
  status : Status
deriving DecidableEq, Repr

/-- An armed `setTimeout` handle: `owner` is the ledger index of the request
whose rejection callback it holds, `rid` the correlation id captured by its
closure, `expiry` the instant from which it may fire. -/
structure TimerRec where
  owner : Nat
  rid : Nat
  expiry : Nat
deriving DecidableEq, Repr

/-- The state of one `McpSseClient`: whether the EventSource exists, the
current clock, the ledger of issued requests (indexed by position), the
`#pendingRequests` map (correlation id to owning ledger index), and the armed
timers. -/
structure ChannelState where
  connected : Bool
  now : Nat
  reqs : List Req
  pending : List (Nat × Nat)
  timers : List TimerRec
deriving DecidableEq, Repr

/-- The default per-request timeout, `#requestTimeout` in the source. -/
def requestTimeoutMs : Nat := 30000

/-- Positional list access used for the request ledger. -/
def nthReq : List Req → Nat → Option Req
  | [], _ => none
  | r :: _, 0 => some r
  | _ :: rs, i + 1 => nthReq rs i

/-- Overwrites the status of ledger entry `i`, when it exists. -/
def updStatus : List Req → Nat → Status → List Req
  | [], _, _ => []
  | r :: rs, 0, s => { r with status := s } :: rs
  | r :: rs, i + 1, s => r :: updStatus rs i s

/-- The rejection loop of `close()`: every pending entry's owner is settled
with the Closed error, in map order. -/
def settleClosed : List (Nat × Nat) → List Req → List Req
  | [], rs => rs
  | p :: l, rs => settleClosed l (updStatus rs p.2 (.settled .rejectedClosed))

/-- The events of the single-threaded event loop around one `McpSseClient`:
opening the connection (which issues the administrative handshake request),
`sendJsonRpcRequest` reaching its POST (`issue`), the POST completing
successfully or failing, an SSE push message arriving, an armed timeout
firing, the wall clock advancing, and `close()` (also what the `onerror`
callback runs). -/
inductive ChEvent
  | connectEv
  | issue (special : Bool)
  | tick (d : Nat)
  | dispatchOk (i : Nat)
  | dispatchFail (i : Nat)
  | inbound (rid : Nat) (isError : Bool)
  | fire (i : Nat)
  | closeEv
deriving DecidableEq, Repr

/-- One step of the event system; events whose guard does not hold leave the
state unchanged (they cannot occur).  Each arm transcribes the corresponding
source block of mcp-sse-client.ts: `connect`, the promise executor of
`sendJsonRpcRequest` (its success continuation arms the timeout and stores the
pending entry, its failure continuation clears a colliding entry and rejects),
the `onmessage` correlation handler, the `setTimeout` callback, and `close`. -/
def stepC (st : ChannelState) : ChEvent → ChannelState
  | .connectEv =>
    if st.connected then st
    else { st with
             connected := true,
             reqs := st.reqs ++ [{ rid := st.now, special := true, status := .inflight }] }
  | .issue special =>
    if special ∨ st.connected then
      { st with reqs := st.reqs ++ [{ rid := st.now, special := special, status := .inflight }] }
    else st
  | .tick d => { st with now := st.now + d }
  | .dispatchOk i =>
    match nthReq st.reqs i with
    | some r =>
      if r.status = .inflight then
        if r.special then { st with reqs := updStatus st.reqs i (.settled .resolvedSpecial) }
        else
          { st with
              reqs := updStatus st.reqs i .waiting,
              timers := st.timers ++ [{ owner := i, rid := r.rid, expiry := st.now + requestTimeoutMs }],
              pending := setA st.pending r.rid i }
      else st
    | none => st
  | .dispatchFail i =>
    match nthReq st.reqs i with
    | some r =>
      if r.status = .inflight then
        let st1 :=
          match lookupA st.pending r.rid with
          | some j =>
            { st with
                timers := st.timers.filter (fun tm => tm.owner ≠ j),
                pending := eraseA st.pending r.rid }
          | none => st
        { st1 with reqs := updStatus st1.reqs i (.settled .rejectedDispatch) }
      else st
    | none => st
  | .inbound rid isError =>
    if st.connected then
      match lookupA st.pending rid with
      | some j =>
        { st with
            timers := st.timers.filter (fun tm => tm.owner ≠ j),
            pending := eraseA st.pending rid,
            reqs := updStatus st.reqs j
              (.settled (if isError then .rejectedError else .resolvedCorrelated)) }
      | none => st
    else st
  | .fire i =>
    match st.timers.find? (fun tm => tm.owner = i) with
    | some tm =>
      if tm.expiry ≤ st.now then
        let st1 := { st with timers := st.timers.filter (fun t => t.owner ≠ i) }
        if (lookupA st1.pending tm.rid).isSome then
          { st1 with
              pending := eraseA st1.pending tm.rid,
              reqs := updStatus st1.reqs i (.settled .rejectedTimeout) }
        else st1
      else st
    | none => st
  | .closeEv =>
    if st.connected then
      let owners := st.pending.map (fun p => p.2)
      { st with
          connected := false,
          reqs := settleClosed st.pending
            (st.reqs ++ [{ rid := st.now, special := true, status := .inflight }]),
          timers := st.timers.filter (fun tm => ¬ tm.owner ∈ owners),
          pending := [] }
    else st

/-- Runs a sequence of events. -/
def runC (st : ChannelState) (evs : List ChEvent) : ChannelState :=
  evs.foldl stepC st

/-- A freshly constructed client at clock `t0`: no EventSource, no requests. -/
def initC (t0 : Nat) : ChannelState :=
  { connected := false, now := t0, reqs := [], pending := [], timers := [] }

/-- Well-formedness of a channel state, as the source maintains it: every
pending-map entry and every armed timer points at a ledger request that is
still awaiting its response, under the entry's own correlation id. -/
def WFch (st : ChannelState) : Prop :=
  (∀ p ∈ st.pending,
     ∃ r, nthReq st.reqs p.2 = some r ∧ r.status = Status.waiting ∧ r.rid = p.1) ∧
  (∀ tm ∈ st.timers,
     ∃ r, nthReq st.reqs tm.owner = some r ∧ r.status = Status.waiting ∧ r.rid = tm.rid)

/-- The statuses a successfully dispatched non-administrative request can
carry: still pending, or settled with one of the four protocol outcomes. -/
def postDispatchStatus (s : Status) : Prop :=
  s = .waiting ∨ s = .settled .resolvedCorrelated ∨ s = .settled .rejectedError ∨
    s = .settled .rejectedTimeout ∨ s = .settled .rejectedClosed

theorem nthReq_append {rs ls : List Req} {i : Nat} {r : Req}
    (h : nthReq rs i = some r) : nthReq (rs ++ ls) i = some r := by
  induction rs generalizing i with
  | nil => simp [nthReq] at h
  | cons a as ih =>
    cases i with
    | zero => simpa [nthReq] using h
    | succ n => simpa [nthReq] using ih (by simpa [nthReq] using h)

theorem nthReq_lt_length {rs : List Req} {i : Nat} {r : Req}
    (h : nthReq rs i = some r) : i < rs.length := by
  induction rs generalizing i with
  | nil => simp [nthReq] at h
  | cons a as ih =>
    cases i with
    | zero => simp
    | succ n =>
      have := ih (by simpa [nthReq] using h)
      simpa [Nat.succ_lt_succ_iff] using this

theorem nthReq_exists_of_lt {rs : List Req} {i : Nat} (h : i < rs.length) :
    ∃ r, nthReq rs i = some r := by
  induction rs generalizing i with
  | nil => simp at h
  | cons a as ih =>
    cases i with
    | zero => exact ⟨a, rfl⟩
    | succ n => exact ih (by simpa [Nat.succ_lt_succ_iff] using h)

theorem updStatus_length (rs : List Req) (i : Nat) (s : Status) :
    (updStatus rs i s).length = rs.length := by
  induction rs generalizing i with
  | nil => simp [updStatus]
  | cons a as ih =>
    cases i with
    | zero => simp [updStatus]
    | succ n => simp [updStatus, ih]

theorem nthReq_updStatus_ne {rs : List Req} {i j : Nat} (s : Status) (h : i ≠ j) :
    nthReq (updStatus rs j s) i = nthReq rs i := by
  induction rs generalizing i j with
  | nil => simp [updStatus]
  | cons a as ih =>
    cases j with
    | zero =>
      cases i with
      | zero => exact absurd rfl h
      | succ n => simp [updStatus, nthReq]
    | succ m =>
      cases i with
      | zero => simp [updStatus, nthReq]
      | succ n =>
        simpa [updStatus, nthReq] using ih (fun hc => h (by simp [hc]))

theorem nthReq_updStatus_eq {rs : List Req} {i : Nat} {r : Req} (s : Status)
    (h : nthReq rs i = some r) :
    nthReq (updStatus rs i s) i = some { r with status := s } := by
  induction rs generalizing i with
  | nil => simp [nthReq] at h
  | cons a as ih =>
    cases i with
    | zero =>
      simp [nthReq] at h
      simp [updStatus, nthReq, h]
    | succ n =>
      simpa [updStatus, nthReq] using ih (by simpa [nthReq] using h)

theorem updStatus_of_none {rs : List Req} {i : Nat} (s : Status)
    (h : nthReq rs i = none) : updStatus rs i s = rs := by
  induction rs generalizing i with
  | nil => simp [updStatus]
  | cons a as ih =>
    cases i with
    | zero => simp [nthReq] at h
    | succ n => simp [updStatus, ih (by simpa [nthReq] using h)]

theorem settleClosed_length (l : List (Nat × Nat)) (rs : List Req) :
    (settleClosed l rs).length = rs.length := by
  induction l generalizing rs with
  | nil => rfl
  | cons p l ih => simp [settleClosed, ih, updStatus_length]

theorem settleClosed_not_owner {l : List (Nat × Nat)} {rs : List Req} {i : Nat}
    (h : ¬ i ∈ l.map (fun p => p.2)) :
    nthReq (settleClosed l rs) i = nthReq rs i := by
  induction l generalizing rs with
  | nil => rfl
  | cons p l ih =>
    simp only [List.map_cons, List.mem_cons] at h
    push_neg at h
    rw [settleClosed, ih h.2, nthReq_updStatus_ne _ h.1]

theorem settleClosed_cases (l : List (Nat × Nat)) (rs : List Req) (i : Nat) :
    nthReq (settleClosed l rs) i = nthReq rs i ∨
      ∃ r, nthReq rs i = some r ∧
        nthReq (settleClosed l rs) i = some { r with status := .settled .rejectedClosed } := by
  induction l generalizing rs with
  | nil => exact Or.inl rfl
  | cons p l ih =>
    rw [settleClosed]
    by_cases hij : i = p.2
    · rw [← hij]
      cases hr : nthReq rs i with
      | none =>
        rw [updStatus_of_none _ hr]
        rcases ih rs with h | ⟨r, hr2, _⟩
        · exact Or.inl (h.trans hr)
        · rw [hr] at hr2
          cases hr2
      | some r =>
        rcases ih (updStatus rs i (.settled .rejectedClosed)) with h | ⟨r', hr', hres⟩
        · exact Or.inr ⟨r, rfl, by rw [h, nthReq_updStatus_eq _ hr]⟩
        · rw [nthReq_updStatus_eq _ hr] at hr'
          have heq : r' = { r with status := .settled .rejectedClosed } := by
            injection hr' with h2
            exact h2.symm
          subst heq
          exact Or.inr ⟨r, rfl, by simpa using hres⟩
    · rcases ih (updStatus rs p.2 (.settled .rejectedClosed)) with h | ⟨r', hr', hres⟩
      · rw [h, nthReq_updStatus_ne _ hij]
        exact Or.inl rfl
      · rw [nthReq_updStatus_ne _ hij] at hr'
        exact Or.inr ⟨r', hr', hres⟩

theorem settleClosed_owner {l : List (Nat × Nat)} {rs : List Req} {i : Nat}
    (hmem : i ∈ l.map (fun p => p.2)) (hlen : i < rs.length) :
    ∃ r, nthReq rs i = some r ∧
      nthReq (settleClosed l rs) i = some { r with status := .settled .rejectedClosed } := by
  induction l generalizing rs with
  | nil => simp at hmem
  | cons p l ih =>
    obtain ⟨r, hr⟩ := nthReq_exists_of_lt hlen
    refine ⟨r, hr, ?_⟩
    rw [settleClosed]
    by_cases hij : i = p.2
    · rw [← hij]
      have hupd := nthReq_updStatus_eq (.settled .rejectedClosed) hr
      rcases settleClosed_cases l (updStatus rs i (.settled .rejectedClosed)) i with h | ⟨r', hr', hres⟩
      · rw [h, hupd]
      · rw [hupd] at hr'
        injection hr' with h2
        subst h2
        simpa using hres
    · have hmem' : i ∈ l.map (fun p => p.2) := by
        simp only [List.map_cons, List.mem_cons] at hmem
        tauto
      have hlen' : i < (updStatus rs p.2 (.settled .rejectedClosed)).length := by
        simpa [updStatus_length] using hlen
      obtain ⟨r', hr', hres⟩ := ih hmem' hlen'
      rw [nthReq_updStatus_ne _ hij] at hr'
      rw [hr] at hr'
      injection hr' with h2
      subst h2
      exact hres

theorem lookupA_mem {κ β : Type} [DecidableEq κ] {m : List (κ × β)} {k : κ} {v : β}
    (h : lookupA m k = some v) : (k, v) ∈ m := by
  induction m with
  | nil => simp [lookupA] at h
  | cons p rest ih =>
    obtain ⟨a, b⟩ := p
    by_cases hk : a = k
    · subst hk
      simp [lookupA] at h
      simp [h]
    · simp only [lookupA, if_neg hk] at h
      exact List.mem_cons_of_mem _ (ih h)

theorem mem_setA {κ β : Type} [DecidableEq κ] {m : List (κ × β)} {k : κ} {v : β}
    {p : κ × β} (h : p ∈ setA m k v) : p = (k, v) ∨ p ∈ m := by
  induction m with
  | nil => simpa [setA] using h
  | cons q rest ih =>
    obtain ⟨a, b⟩ := q
    by_cases hk : a = k
    · subst hk
      simp only [setA, if_pos rfl] at h
      rcases List.mem_cons.mp h with h | h
      · exact Or.inl h
      · exact Or.inr (List.mem_cons_of_mem _ h)
    · simp only [setA, if_neg hk] at h
      rcases List.mem_cons.mp h with h | h
      · exact Or.inr (by simp [h])
      · rcases ih h with h | h
        · exact Or.inl h
        · exact Or.inr (List.mem_cons_of_mem _ h)

theorem mem_eraseA {κ β : Type} [DecidableEq κ] {m : List (κ × β)} {k : κ}
    {p : κ × β} (h : p ∈ eraseA m k) : p ∈ m ∧ p.1 ≠ k := by
  induction m with
  | nil => simp [eraseA] at h
  | cons q rest ih =>
    obtain ⟨a, b⟩ := q
    by_cases hk : a = k
    · subst hk
      simp only [eraseA, if_pos rfl] at h
      obtain ⟨h1, h2⟩ := ih h
      exact ⟨List.mem_cons_of_mem _ h1, h2⟩
    · simp only [eraseA, if_neg hk] at h
      rcases List.mem_cons.mp h with h | h
      · subst h
        exact ⟨List.mem_cons_self _ _, hk⟩
      · obtain ⟨h1, h2⟩ := ih h
        exact ⟨List.mem_cons_of_mem _ h1, h2⟩

theorem wfch_preserved (st : ChannelState) (ev : ChEvent) (h : WFch st) :
    WFch (stepC st ev) := by
  obtain ⟨hp, ht⟩ := h
  cases ev with
  | connectEv =>
    by_cases hc : st.connected
    · simpa [stepC, hc] using ⟨hp, ht⟩
    · refine ⟨?_, ?_⟩ <;> intro x hx
      · obtain ⟨r, hr, hw, hrid⟩ := hp x (by simpa [stepC, hc] using hx)
        exact ⟨r, by simp [stepC, hc, nthReq_append hr], hw, hrid⟩
      · obtain ⟨r, hr, hw, hrid⟩ := ht x (by simpa [stepC, hc] using hx)
        exact ⟨r, by simp [stepC, hc, nthReq_append hr], hw, hrid⟩
  | issue special =>
    by_cases hc : special ∨ st.connected
    · refine ⟨?_, ?_⟩ <;> intro x hx
      · obtain ⟨r, hr, hw, hrid⟩ := hp x (by simpa [stepC, hc] using hx)
        exact ⟨r, by simp [stepC, hc, nthReq_append hr], hw, hrid⟩
      · obtain ⟨r, hr, hw, hrid⟩ := ht x (by simpa [stepC, hc] using hx)
        exact ⟨r, by simp [stepC, hc, nthReq_append hr], hw, hrid⟩
    · simpa [stepC, hc] using ⟨hp, ht⟩
  | tick d =>
    exact ⟨fun x hx => hp x hx, fun x hx => ht x hx⟩
  | dispatchOk i =>
    cases hnth : nthReq st.reqs i with
    | none => simpa [stepC, hnth] using ⟨hp, ht⟩
    | some r =>
      by_cases hst : r.status = .inflight
      · by_cases hsp : r.special
        · refine ⟨?_, ?_⟩ <;> intro x hx
          · obtain ⟨r', hr', hw, hrid⟩ := hp x (by simpa [stepC, hnth, hst, hsp] using hx)
            have hne : x.2 ≠ i := by
              intro hxi
              rw [hxi, hnth] at hr'
              injection hr' with h2
              rw [← h2] at hw
              rw [hw] at hst
              cases hst
            refine ⟨r', ?_, hw, hrid⟩
            simp [stepC, hnth, hst, hsp, nthReq_updStatus_ne _ hne, hr']
          · obtain ⟨r', hr', hw, hrid⟩ := ht x (by simpa [stepC, hnth, hst, hsp] using hx)
            have hne : x.owner ≠ i := by
              intro hxi
              rw [hxi, hnth] at hr'
              injection hr' with h2
              rw [← h2] at hw
              rw [hw] at hst
              cases hst
            refine ⟨r', ?_, hw, hrid⟩
            simp [stepC, hnth, hst, hsp, nthReq_updStatus_ne _ hne, hr']
        · refine ⟨?_, ?_⟩ <;> intro x hx
          · have hx' : x ∈ setA st.pending r.rid i := by
              simpa [stepC, hnth, hst, hsp] using hx
            rcases mem_setA hx' with hxe | hxm
            · refine ⟨{ r with status := .waiting }, ?_, rfl, by simp [hxe]⟩
              simp [stepC, hnth, hst, hsp, hxe, nthReq_updStatus_eq _ hnth]
            · obtain ⟨r', hr', hw, hrid⟩ := hp x hxm
              have hne : x.2 ≠ i := by
                intro hxi
                rw [hxi, hnth] at hr'
                injection hr' with h2
                rw [← h2] at hw
                rw [hw] at hst
                cases hst
              refine ⟨r', ?_, hw, hrid⟩
              simp [stepC, hnth, hst, hsp, nthReq_updStatus_ne _ hne, hr']
          · have hx' : x ∈ st.timers ++
                [{ owner := i, rid := r.rid, expiry := st.now + requestTimeoutMs }] := by
              simpa [stepC, hnth, hst, hsp] using hx
            rcases List.mem_append.mp hx' with hxm | hxe
            · obtain ⟨r', hr', hw, hrid⟩ := ht x hxm
              have hne : x.owner ≠ i := by
                intro hxi
                rw [hxi, hnth] at hr'
                injection hr' with h2
                rw [← h2] at hw
                rw [hw] at hst
                cases hst
              refine ⟨r', ?_, hw, hrid⟩
              simp [stepC, hnth, hst, hsp, nthReq_updStatus_ne _ hne, hr']
            · have hxe' : x = { owner := i, rid := r.rid, expiry := st.now + requestTimeoutMs } := by
                simpa using hxe
              refine ⟨{ r with status := .waiting }, ?_, rfl, by simp [hxe']⟩
              simp [stepC, hnth, hst, hsp, hxe', nthReq_updStatus_eq _ hnth]
      · simpa [stepC, hnth, hst] using ⟨hp, ht⟩
  | dispatchFail i =>
    cases hnth : nthReq st.reqs i with
    | none => simpa [stepC, hnth] using ⟨hp, ht⟩
    | some r =>
      by_cases hst : r.status = .inflight
      · cases hlk : lookupA st.pending r.rid with
        | some j =>
          refine ⟨?_, ?_⟩ <;> intro x hx
          · have hx' : x ∈ eraseA st.pending r.rid := by
              simpa [stepC, hnth, hst, hlk] using hx
            obtain ⟨hxm, hxk⟩ := mem_eraseA hx'
            obtain ⟨r', hr', hw, hrid⟩ := hp x hxm
            have hne : x.2 ≠ i := by
              intro hxi
              rw [hxi, hnth] at hr'
              injection hr' with h2
              rw [← h2] at hw
              rw [hw] at hst
              cases hst
            refine ⟨r', ?_, hw, hrid⟩
            simp [stepC, hnth, hst, hlk, nthReq_updStatus_ne _ hne, hr']
          · have hx' : x ∈ st.timers.filter (fun tm => tm.owner ≠ j) := by
              simpa [stepC, hnth, hst, hlk] using hx
            have hxm := (List.mem_filter.mp hx').1
            obtain ⟨r', hr', hw, hrid⟩ := ht x hxm
            have hne : x.owner ≠ i := by
              intro hxi
              rw [hxi, hnth] at hr'
              injection hr' with h2
              rw [← h2] at hw
              rw [hw] at hst
              cases hst
            refine ⟨r', ?_, hw, hrid⟩
            simp [stepC, hnth, hst, hlk, nthReq_updStatus_ne _ hne, hr']
        | none =>
          refine ⟨?_, ?_⟩ <;> intro x hx
          · obtain ⟨r', hr', hw, hrid⟩ := hp x (by simpa [stepC, hnth, hst, hlk] using hx)
            have hne : x.2 ≠ i := by
              intro hxi
              rw [hxi, hnth] at hr'
              injection hr' with h2
              rw [← h2] at hw
              rw [hw] at hst
              cases hst
            refine ⟨r', ?_, hw, hrid⟩
            simp [stepC, hnth, hst, hlk, nthReq_updStatus_ne _ hne, hr']
          · obtain ⟨r', hr', hw, hrid⟩ := ht x (by simpa [stepC, hnth, hst, hlk] using hx)
            have hne : x.owner ≠ i := by
              intro hxi
              rw [hxi, hnth] at hr'
              injection hr' with h2
              rw [← h2] at hw
              rw [hw] at hst
              cases hst
            refine ⟨r', ?_, hw, hrid⟩
            simp [stepC, hnth, hst, hlk, nthReq_updStatus_ne _ hne, hr']
      · simpa [stepC, hnth, hst] using ⟨hp, ht⟩
  | inbound rid isError =>
    by_cases hc : st.connected
    · cases hlk : lookupA st.pending rid with
      | none => simpa [stepC, hc, hlk] using ⟨hp, ht⟩
      | some j =>
        obtain ⟨rj, hrj, hwj, hridj⟩ := hp (rid, j) (lookupA_mem hlk)
        refine ⟨?_, ?_⟩ <;> intro x hx
        · have hx' : x ∈ eraseA st.pending rid := by
            simpa [stepC, hc, hlk] using hx
          obtain ⟨hxm, hxk⟩ := mem_eraseA hx'
          obtain ⟨r', hr', hw, hrid⟩ := hp x hxm
          have hne : x.2 ≠ j := by
            intro hxj
            rw [hxj, hrj] at hr'
            injection hr' with h2
            rw [← h2] at hrid
            simp only [] at hridj
            rw [hridj] at hrid
            exact hxk hrid.symm
          refine ⟨r', ?_, hw, hrid⟩
          simp [stepC, hc, hlk, nthReq_updStatus_ne _ hne, hr']
        · have hx' : x ∈ st.timers.filter (fun tm => tm.owner ≠ j) := by
            simpa [stepC, hc, hlk] using hx
          obtain ⟨hxm, hxp⟩ := List.mem_filter.mp hx'
          have hne : x.owner ≠ j := by simpa using hxp
          obtain ⟨r', hr', hw, hrid⟩ := ht x hxm
          refine ⟨r', ?_, hw, hrid⟩
          simp [stepC, hc, hlk, nthReq_updStatus_ne _ hne, hr']
    · simpa [stepC, hc] using ⟨hp, ht⟩
  | fire i =>
    cases hfind : st.timers.find? (fun tm => tm.owner = i) with
    | none => simpa [stepC, hfind] using ⟨hp, ht⟩
    | some tm =>
      have htm_mem : tm ∈ st.timers := List.mem_of_find?_eq_some hfind
      have htm_own : tm.owner = i := by
        have := List.find?_some hfind
        simpa using this
      obtain ⟨ri, hri, hwi, hridi⟩ := ht tm htm_mem
      by_cases hexp : tm.expiry ≤ st.now
      · cases hlk : lookupA st.pending tm.rid with
        | some j =>
          refine ⟨?_, ?_⟩ <;> intro x hx
          · have hx' : x ∈ eraseA st.pending tm.rid := by
              simpa [stepC, hfind, hexp, hlk] using hx
            obtain ⟨hxm, hxk⟩ := mem_eraseA hx'
            obtain ⟨r', hr', hw, hrid⟩ := hp x hxm
            have hne : x.2 ≠ i := by
              intro hxi
              rw [← htm_own] at hxi
              rw [hxi, hri] at hr'
              injection hr' with h2
              rw [← h2] at hrid
              rw [hridi] at hrid
              exact hxk hrid.symm
            refine ⟨r', ?_, hw, hrid⟩
            simp [stepC, hfind, hexp, hlk, nthReq_updStatus_ne _ hne, hr']
          · have hx' : x ∈ st.timers.filter (fun t => t.owner ≠ i) := by
              simpa [stepC, hfind, hexp, hlk] using hx
            obtain ⟨hxm, hxp⟩ := List.mem_filter.mp hx'
            have hne : x.owner ≠ i := by simpa using hxp
            obtain ⟨r', hr', hw, hrid⟩ := ht x hxm
            refine ⟨r', ?_, hw, hrid⟩
            simp [stepC, hfind, hexp, hlk, nthReq_updStatus_ne _ hne, hr']
        | none =>
          refine ⟨?_, ?_⟩ <;> intro x hx
          · obtain ⟨r', hr', hw, hrid⟩ := hp x (by simpa [stepC, hfind, hexp, hlk] using hx)
            exact ⟨r', by simpa [stepC, hfind, hexp, hlk] using hr', hw, hrid⟩
          · have hx' : x ∈ st.timers.filter (fun t => t.owner ≠ i) := by
              simpa [stepC, hfind, hexp, hlk] using hx
            obtain ⟨r', hr', hw, hrid⟩ := ht x (List.mem_filter.mp hx').1
            exact ⟨r', by simpa [stepC, hfind, hexp, hlk] using hr', hw, hrid⟩
      · simpa [stepC, hfind, hexp] using ⟨hp, ht⟩
  | closeEv =>
    by_cases hc : st.connected
    · refine ⟨?_, ?_⟩ <;> intro x hx
      · simp [stepC, hc] at hx
      · have hx' : x ∈ st.timers.filter
            (fun tm => ¬ tm.owner ∈ st.pending.map (fun p => p.2)) := by
          simpa [stepC, hc] using hx
        obtain ⟨hxm, hxp⟩ := List.mem_filter.mp hx'
        have hxnot : ¬ x.owner ∈ st.pending.map (fun p => p.2) := by simpa using hxp
        obtain ⟨r', hr', hw, hrid⟩ := ht x hxm
        refine ⟨r', ?_, hw, hrid⟩
        show nthReq (stepC st .closeEv).reqs x.owner = some r'
        have hreqs : (stepC st .closeEv).reqs = settleClosed st.pending
            (st.reqs ++ [{ rid := st.now, special := true, status := .inflight }]) := by
          simp [stepC, hc]
        rw [hreqs, settleClosed_not_owner hxnot]
        exact nthReq_append hr'
    · simpa [stepC, hc] using ⟨hp, ht⟩

theorem settled_absorbing {st : ChannelState} {ev : ChEvent} {i : Nat} {r : Req}
    {o : Outcome} (h : WFch st) (hr : nthReq st.reqs i = some r)
    (hs : r.status = .settled o) : nthReq (stepC st ev).reqs i = some r := by
  obtain ⟨hp, ht⟩ := h
  cases ev with
  | connectEv =>
    by_cases hc : st.connected
    · simpa [stepC, hc] using hr
    · simpa [stepC, hc] using nthReq_append hr
  | issue special =>
    by_cases hc : special ∨ st.connected
    · simpa [stepC, hc] using nthReq_append hr
    · simpa [stepC, hc] using hr
  | tick d => exact hr
  | dispatchOk k =>
    cases hnth : nthReq st.reqs k with
    | none => simpa [stepC, hnth] using hr
    | some rk =>
      by_cases hst : rk.status = .inflight
      · have hne : i ≠ k := by
          intro hik
          rw [hik, hnth] at hr
          injection hr with h2
          rw [h2] at hst
          rw [hs] at hst
          cases hst
        by_cases hsp : rk.special
        · simpa [stepC, hnth, hst, hsp, nthReq_updStatus_ne _ hne] using hr
        · simpa [stepC, hnth, hst, hsp, nthReq_updStatus_ne _ hne] using hr
      · simpa [stepC, hnth, hst] using hr
  | dispatchFail k =>
    cases hnth : nthReq st.reqs k with
    | none => simpa [stepC, hnth] using hr
    | some rk =>
      by_cases hst : rk.status = .inflight
      · have hne : i ≠ k := by
          intro hik
          rw [hik, hnth] at hr
          injection hr with h2
          rw [h2] at hst
          rw [hs] at hst
          cases hst
        cases hlk : lookupA st.pending rk.rid with
        | some j => simpa [stepC, hnth, hst, hlk, nthReq_updStatus_ne _ hne] using hr
        | none => simpa [stepC, hnth, hst, hlk, nthReq_updStatus_ne _ hne] using hr
      · simpa [stepC, hnth, hst] using hr
  | inbound rid isError =>
    by_cases hc : st.connected
    · cases hlk : lookupA st.pending rid with
      | none => simpa [stepC, hc, hlk] using hr
      | some j =>
        obtain ⟨rj, hrj, hwj, hridj⟩ := hp (rid, j) (lookupA_mem hlk)
        have hne : i ≠ j := by
          intro hij
          rw [hij, hrj] at hr
          injection hr with h2
          rw [h2] at hwj
          rw [hs] at hwj
          cases hwj
        simpa [stepC, hc, hlk, nthReq_updStatus_ne _ hne] using hr
    · simpa [stepC, hc] using hr
  | fire k =>
    cases hfind : st.timers.find? (fun tm => tm.owner = k) with
    | none => simpa [stepC, hfind] using hr
    | some tm =>
      obtain ⟨rk, hrk, hwk, hridk⟩ := ht tm (List.mem_of_find?_eq_some hfind)
      have htm_own : tm.owner = k := by
        have := List.find?_some hfind
        simpa using this
      have hne : i ≠ k := by
        intro hik
        rw [← htm_own] at hik
        rw [hik, hrk] at hr
        injection hr with h2
        rw [h2] at hwk
        rw [hs] at hwk
        cases hwk
      by_cases hexp : tm.expiry ≤ st.now
      · cases hlk : lookupA st.pending tm.rid with
        | some j => simpa [stepC, hfind, hexp, hlk, nthReq_updStatus_ne _ hne] using hr
        | none => simpa [stepC, hfind, hexp, hlk] using hr
      · simpa [stepC, hfind, hexp] using hr
  | closeEv =>
    by_cases hc : st.connected
    · have hnot : ¬ i ∈ st.pending.map (fun p => p.2) := by
        intro hmem
        obtain ⟨p, hpmem, hpi⟩ := List.mem_map.mp hmem
        obtain ⟨rp, hrp, hwp, _⟩ := hp p hpmem
        rw [hpi, hr] at hrp
        injection hrp with h2
        rw [← h2] at hwp
        rw [hs] at hwp
        cases hwp
      have hreqs : (stepC st .closeEv).reqs = settleClosed st.pending
          (st.reqs ++ [{ rid := st.now, special := true, status := .inflight }]) := by
        simp [stepC, hc]
      rw [hreqs, settleClosed_not_owner hnot]
      exact nthReq_append hr
    · simpa [stepC, hc] using hr

theorem postDispatch_preserved {st : ChannelState} {ev : ChEvent} {i : Nat} {r : Req}
    (hr : nthReq st.reqs i = some r) (hsp : r.special = false)
    (hpd : postDispatchStatus r.status) :
    ∃ r', nthReq (stepC st ev).reqs i = some r' ∧ r'.special = false ∧
      r'.rid = r.rid ∧ postDispatchStatus r'.status := by
  have hnotin : r.status ≠ .inflight := by
    rcases hpd with h | h | h | h | h <;> simp [h]
  cases ev with
  | connectEv =>
    by_cases hc : st.connected
    · exact ⟨r, by simpa [stepC, hc] using hr, hsp, rfl, hpd⟩
    · exact ⟨r, by simpa [stepC, hc] using nthReq_append hr, hsp, rfl, hpd⟩
  | issue special =>
    by_cases hc : special ∨ st.connected
    · exact ⟨r, by simpa [stepC, hc] using nthReq_append hr, hsp, rfl, hpd⟩
    · exact ⟨r, by simpa [stepC, hc] using hr, hsp, rfl, hpd⟩
  | tick d => exact ⟨r, hr, hsp, rfl, hpd⟩
  | dispatchOk k =>
    cases hnth : nthReq st.reqs k with
    | none => exact ⟨r, by simpa [stepC, hnth] using hr, hsp, rfl, hpd⟩
    | some rk =>
      by_cases hst : rk.status = .inflight
      · have hne : i ≠ k := by
          intro hik
          rw [hik, hnth] at hr
          injection hr with h2
          rw [h2] at hst
          exact hnotin hst
        by_cases hspk : rk.special
        · exact ⟨r, by simpa [stepC, hnth, hst, hspk, nthReq_updStatus_ne _ hne] using hr,
            hsp, rfl, hpd⟩
        · exact ⟨r, by simpa [stepC, hnth, hst, hspk, nthReq_updStatus_ne _ hne] using hr,
            hsp, rfl, hpd⟩
      · exact ⟨r, by simpa [stepC, hnth, hst] using hr, hsp, rfl, hpd⟩
  | dispatchFail k =>
    cases hnth : nthReq st.reqs k with
    | none => exact ⟨r, by simpa [stepC, hnth] using hr, hsp, rfl, hpd⟩
    | some rk =>
      by_cases hst : rk.status = .inflight
      · have hne : i ≠ k := by
          intro hik
          rw [hik, hnth] at hr
          injection hr with h2
          rw [h2] at hst
          exact hnotin hst
        cases hlk : lookupA st.pending rk.rid with
        | some j =>
          exact ⟨r, by simpa [stepC, hnth, hst, hlk, nthReq_updStatus_ne _ hne] using hr,
            hsp, rfl, hpd⟩
        | none =>
          exact ⟨r, by simpa [stepC, hnth, hst, hlk, nthReq_updStatus_ne _ hne] using hr,
            hsp, rfl, hpd⟩
      · exact ⟨r, by simpa [stepC, hnth, hst] using hr, hsp, rfl, hpd⟩
  | inbound rid isError =>
    by_cases hc : st.connected
    · cases hlk : lookupA st.pending rid with
      | none => exact ⟨r, by simpa [stepC, hc, hlk] using hr, hsp, rfl, hpd⟩
      | some j =>
        by_cases hij : i = j
        · subst hij
          refine ⟨{ r with status := .settled (if isError then .rejectedError else .resolvedCorrelated) }, ?_, hsp, rfl, ?_⟩
          · simpa [stepC, hc, hlk] using nthReq_updStatus_eq _ hr
          · cases isError <;> simp [postDispatchStatus]
        · exact ⟨r, by simpa [stepC, hc, hlk, nthReq_updStatus_ne _ hij] using hr,
            hsp, rfl, hpd⟩
    · exact ⟨r, by simpa [stepC, hc] using hr, hsp, rfl, hpd⟩
  | fire k =>
    cases hfind : st.timers.find? (fun tm => tm.owner = k) with
    | none => exact ⟨r, by simpa [stepC, hfind] using hr, hsp, rfl, hpd⟩
    | some tm =>
      by_cases hexp : tm.expiry ≤ st.now
      · cases hlk : lookupA st.pending tm.rid with
        | some j =>
          by_cases hik : i = k
          · subst hik
            refine ⟨{ r with status := .settled .rejectedTimeout }, ?_, hsp, rfl, ?_⟩
            · simpa [stepC, hfind, hexp, hlk] using nthReq_updStatus_eq _ hr
            · simp [postDispatchStatus]
          · exact ⟨r, by simpa [stepC, hfind, hexp, hlk, nthReq_updStatus_ne _ hik] using hr,
              hsp, rfl, hpd⟩
        | none => exact ⟨r, by simpa [stepC, hfind, hexp, hlk] using hr, hsp, rfl, hpd⟩
      · exact ⟨r, by simpa [stepC, hfind, hexp] using hr, hsp, rfl, hpd⟩
  | closeEv =>
    by_cases hc : st.connected
    · have hreqs : (stepC st .closeEv).reqs = settleClosed st.pending
          (st.reqs ++ [{ rid := st.now, special := true, status := .inflight }]) := by
        simp [stepC, hc]
      have happ : nthReq (st.reqs ++
          [({ rid := st.now, special := true, status := Status.inflight } : Req)]) i =
          some r := nthReq_append hr
      rcases settleClosed_cases st.pending
          (st.reqs ++ [{ rid := st.now, special := true, status := .inflight }]) i with
        h | ⟨rb, hrb, hres⟩
      · exact ⟨r, by rw [hreqs, h]; exact happ, hsp, rfl, hpd⟩
      · rw [happ] at hrb
        injection hrb with h2
        subst h2
        refine ⟨{ r with status := .settled .rejectedClosed }, ?_, hsp, rfl, ?_⟩
        · rw [hreqs]
          exact hres
        · simp [postDispatchStatus]
    · exact ⟨r, by simpa [stepC, hc] using hr, hsp, rfl, hpd⟩

theorem close_settles_pending {st : ChannelState} {rid j : Nat}
    (hc : st.connected = true) (hmem : (rid, j) ∈ st.pending)
    (hlen : j < st.reqs.length) :
    ∃ r, nthReq (stepC st .closeEv).reqs j = some r ∧
      r.status = .settled .rejectedClosed := by
  have hreqs : (stepC st .closeEv).reqs = settleClosed st.pending
      (st.reqs ++ [{ rid := st.now, special := true, status := .inflight }]) := by
    simp [stepC, hc]
  have hmem' : j ∈ st.pending.map (fun p => p.2) :=
    List.mem_map.mpr ⟨(rid, j), hmem, rfl⟩
  have hlen' : j < (st.reqs ++
      [({ rid := st.now, special := true, status := Status.inflight } : Req)]).length := by
    simp only [List.length_append, List.length_cons, List.length_nil]
    omega
  obtain ⟨r, hrbase, hres⟩ := settleClosed_owner hmem' hlen'
  exact ⟨{ r with status := .settled .rejectedClosed }, by rw [hreqs]; exact hres, rfl⟩

theorem lookupA_setA_self {κ β : Type} [DecidableEq κ] (m : List (κ × β)) (k : κ) (v : β) :
    lookupA (setA m k v) k = some v := by
  induction m with
  | nil => simp [setA, lookupA]
  | cons p rest ih =>
    obtain ⟨a, b⟩ := p
    by_cases hk : a = k
    · simp [setA, hk, lookupA]
    · simp [setA, hk, lookupA, ih]

theorem lookupA_eraseA_self {κ β : Type} [DecidableEq κ] (m : List (κ × β)) (k : κ) :
    lookupA (eraseA m k) k = none := by
  induction m with
  | nil => simp [eraseA, lookupA]
  | cons p rest ih =>
    obtain ⟨a, b⟩ := p
    by_cases hk : a = k
    · simp [eraseA, hk, ih]
    · simp [eraseA, hk, lookupA, ih]

theorem registerTools_fst (st : McpState) (s : String) : (registerTools st s).1 = st := by
  unfold registerTools
  cases lookupA st.serverTools s <;> rfl

theorem mem_registerTools {st : McpState} {s : String} {tools : List McpTool} {t : McpTool}
    (hl : lookupA st.serverTools s = some tools) (hmem : t ∈ tools)
    (hen : t.enabled = some true) :
    HostCall.register s t.name ∈ (registerTools st s).2 := by
  unfold registerTools
  rw [hl]
  exact List.mem_map.mpr ⟨t, List.mem_filter.mpr ⟨hmem, by simp [hen]⟩, rfl⟩

theorem applyCalls_unregs_keep_out {cs : List HostCall} {r : List String} {id : String}
    (hall : ∀ c ∈ cs, ∃ s t, c = HostCall.unregister s t) (hout : ¬ id ∈ r) :
    ¬ id ∈ applyCalls r cs := by
  induction cs generalizing r with
  | nil => exact hout
  | cons c rest ih =>
    obtain ⟨s, t, hc⟩ := hall c (List.mem_cons_self _ _)
    subst hc
    refine ih (fun c hc => hall c (List.mem_cons_of_mem _ hc)) ?_
    intro hmem
    exact hout (List.mem_of_mem_filter hmem)

theorem applyCalls_unregs_removes {l : List McpTool} {r : List String} {s : String}
    {t : McpTool} (hmem : t ∈ l) :
    ¬ toolId s t.name ∈ applyCalls r (l.map (fun u => HostCall.unregister s u.name)) := by
  induction l generalizing r with
  | nil => simp at hmem
  | cons u rest ih =>
    rcases List.mem_cons.mp hmem with hut | hmem'
    · subst hut
      show ¬ toolId s t.name ∈ applyCalls (applyCall r (HostCall.unregister s t.name))
        (rest.map (fun u => HostCall.unregister s u.name))
      refine applyCalls_unregs_keep_out (fun c hc => ?_) ?_
      · obtain ⟨u, _, hu⟩ := List.mem_map.mp hc
        exact ⟨s, u.name, hu.symm⟩
      · intro hmem2
        have := List.mem_filter.mp hmem2
        simp at this
    · exact ih hmem'

theorem updateToolsLoop_spec (serverName : String) (disabled : List String)
    (doReg : Bool) (tools : List McpTool) :
    updateToolsLoop serverName disabled doReg tools =
      (tools.map (fun t => { t with enabled := some (decide (¬ t.name ∈ disabled)) }),
       if doReg then
         tools.filterMap (fun t =>
           if t.enabled = some true ∧ t.name ∈ disabled then
             some (HostCall.unregister serverName t.name)
           else if ¬ t.enabled = some true ∧ ¬ t.name ∈ disabled then
             some (HostCall.register serverName t.name)
           else none)
       else []) := by
  induction tools with
  | nil => cases doReg <;> simp [updateToolsLoop]
  | cons t rest ih =>
    rw [updateToolsLoop, ih]
    cases doReg with
    | false => simp
    | true =>
      by_cases hen : t.enabled = some true <;> by_cases hdis : t.name ∈ disabled <;>
        simp [hen, hdis, List.filterMap_cons]

/-- C2 (counterexample): a request whose outbound POST fails settles with the
dispatch-failure rejection, an outcome that is none of the four the claim
enumerates (resolve-with-correlated-response, reject-by-error-object,
reject-by-timeout, reject-by-close).  Trace: connect, clock tick, send a
regular request, its HTTP dispatch fails. -/
theorem c2_counterexample_dispatch_failure :
    nthReq (runC (initC 0)
        [.connectEv, .tick 1, .issue false, .dispatchFail 1]).reqs 1 =
      some { rid := 1, special := false, status := .settled .rejectedDispatch } ∧
    ¬ postDispatchStatus (Status.settled .rejectedDispatch) := by
  constructor
  · decide
  · simp [postDispatchStatus]

/-- C2 (amended): for requests whose outbound dispatch succeeds and that are
not administrative, settlement happens at most once and only with one of the
four protocol outcomes, and a still-pending request can always be settled
(close settles it with the Closed rejection); requests whose dispatch fails
reject with the dispatch error instead, and administrative requests resolve
immediately on dispatch.  Formally: (1) well-formedness of the channel state
is preserved by every event; (2) a settled request is never touched again by
any event (settlement is absorbing, hence at most once); (3) once a
non-administrative request is past dispatch, its status stays in
{waiting} ∪ {the four settled outcomes} under every event; (4) close settles
every request that sits in the pending map. -/
theorem c2_request_settlement :
    (∀ (st : ChannelState) (ev : ChEvent), WFch st → WFch (stepC st ev)) ∧
    (∀ (st : ChannelState) (ev : ChEvent) (i : Nat) (r : Req) (o : Outcome),
       WFch st → nthReq st.reqs i = some r → r.status = .settled o →
       nthReq (stepC st ev).reqs i = some r) ∧
    (∀ (st : ChannelState) (ev : ChEvent) (i : Nat) (r : Req),
       nthReq st.reqs i = some r → r.special = false → postDispatchStatus r.status →
       ∃ r', nthReq (stepC st ev).reqs i = some r' ∧ r'.special = false ∧
         r'.rid = r.rid ∧ postDispatchStatus r'.status) ∧
    (∀ (st : ChannelState) (rid j : Nat),
       st.connected = true → (rid, j) ∈ st.pending → j < st.reqs.length →
       ∃ r, nthReq (stepC st .closeEv).reqs j = some r ∧
         r.status = .settled .rejectedClosed) :=
  ⟨wfch_preserved,
   fun _ _ _ _ _ h hr hs => settled_absorbing h hr hs,
   fun _ _ _ _ hr hsp hpd => postDispatch_preserved hr hsp hpd,
   fun _ _ _ hc hm hl => close_settles_pending hc hm hl⟩

/-- C2 (witness): the amended theorem applied at concrete inputs: a fresh
client stays well-formed across its connect event, and closing a channel
holding one pending request settles that request with the Closed rejection. -/
theorem c2_request_settlement_witness :
    WFch (stepC (initC 0) .connectEv) ∧
    (∃ r, nthReq (stepC (runC (initC 0)
        [.connectEv, .issue false, .dispatchOk 1]) .closeEv).reqs 1 = some r ∧
      r.status = .settled .rejectedClosed) := by
  constructor
  · refine c2_request_settlement.1 (initC 0) .connectEv ⟨?_, ?_⟩ <;>
      intro x hx <;> simp [initC] at hx
  · exact c2_request_settlement.2.2.2
      (runC (initC 0) [.connectEv, .issue false, .dispatchOk 1]) 0 1
      (by decide) (by decide) (by decide)

/-- C4 (counterexample): in a channel state reachable by two sends in the same
millisecond (their `Date.now()` correlation ids collide, so the second
pending-map `set` orphans the first request's timer), close() does not disarm
the orphaned timer: it survives the close and can still fire afterwards.  This
refutes the claim's "disarms every armed timeout so that no timer fires
afterward" for every channel state. -/
theorem c4_counterexample_orphan_timer :
    (runC (initC 0)
        [.connectEv, .issue false, .dispatchOk 1, .issue false, .dispatchOk 2,
         .closeEv]).timers = [{ owner := 1, rid := 0, expiry := 30000 }] ∧
    (runC (initC 0)
        [.connectEv, .issue false, .dispatchOk 1, .issue false, .dispatchOk 2,
         .closeEv]).connected = false := by
  decide

/-- C4 (amended): close() on a connected channel rejects every pending request
with the Closed error, empties the pending map, disarms every timeout owned by
a pending entry (a timer orphaned by a correlation-id collision is the only
kind it misses), and releases the subscription; close() on an already-closed
channel is a no-op, so repeated calls — including the one the transport error
callback makes — are safe, and close is idempotent. -/
theorem c4_close_amended : ∀ st : ChannelState,
    (st.connected = false → stepC st .closeEv = st) ∧
    (st.connected = true →
       (stepC st .closeEv).pending = [] ∧
       (stepC st .closeEv).connected = false ∧
       (∀ p ∈ st.pending, p.2 < st.reqs.length →
          ∃ r, nthReq (stepC st .closeEv).reqs p.2 = some r ∧
            r.status = .settled .rejectedClosed) ∧
       (stepC st .closeEv).timers =
         st.timers.filter (fun tm => ¬ tm.owner ∈ st.pending.map (fun p => p.2))) ∧
    stepC (stepC st .closeEv) .closeEv = stepC st .closeEv := by
  intro st
  refine ⟨?_, ?_, ?_⟩
  · intro hc
    simp [stepC, hc]
  · intro hc
    refine ⟨by simp [stepC, hc], by simp [stepC, hc], ?_, by simp [stepC, hc]⟩
    intro p hmem hlen
    exact close_settles_pending hc (by simpa using hmem) hlen
  · have hgen : ∀ s : ChannelState, s.connected = false → stepC s .closeEv = s := by
      intro s hs
      simp [stepC, hs]
    by_cases hc : st.connected
    · exact hgen _ (by simp [stepC, hc])
    · have h0 : stepC st .closeEv = st := hgen st (by simpa using hc)
      rw [h0]
      exact h0

/-- C4 (witness): the amended theorem applied to a connected channel with one
pending request: close empties the pending map, drops the connection and a
second close is a no-op. -/
theorem c4_close_amended_witness :
    (stepC (runC (initC 0) [.connectEv, .issue false, .dispatchOk 1])
        .closeEv).pending = [] ∧
    (stepC (runC (initC 0) [.connectEv, .issue false, .dispatchOk 1])
        .closeEv).connected = false ∧
    stepC (stepC (runC (initC 0) [.connectEv, .issue false, .dispatchOk 1])
        .closeEv) .closeEv =
      stepC (runC (initC 0) [.connectEv, .issue false, .dispatchOk 1]) .closeEv := by
  refine ⟨?_, ?_, ?_⟩
  · exact ((c4_close_amended (runC (initC 0)
      [.connectEv, .issue false, .dispatchOk 1])).2.1 (by decide)).1
  · exact ((c4_close_amended (runC (initC 0)
      [.connectEv, .issue false, .dispatchOk 1])).2.1 (by decide)).2.1
  · exact (c4_close_amended (runC (initC 0)
      [.connectEv, .issue false, .dispatchOk 1])).2.2

/-- C5 (counterexample): a timeout can also be disarmed by channel close, not
only by response arrival or by its own firing: after connect, send, successful
dispatch (timer armed), close() clears the timer while the request was settled
with the Closed rejection — no response ever arrived and the timer never
fired.  This refutes the claim's parenthetical "(by response arrival or by its
own firing)". -/
theorem c5_counterexample_close_disarms :
    (runC (initC 0)
        [.connectEv, .tick 1, .issue false, .dispatchOk 1, .closeEv]).timers = [] ∧
    nthReq (runC (initC 0)
        [.connectEv, .tick 1, .issue false, .dispatchOk 1, .closeEv]).reqs 1 =
      some { rid := 1, special := false, status := .settled .rejectedClosed } := by
  decide

/-- C5 (amended): for every non-administrative request, a timeout of exactly
30000 ms is armed the moment its dispatch succeeds, and is disarmed at most
once, through exactly four paths: arrival of a response correlated to its
owner's pending entry, its own firing, channel close, or the dispatch-failure
cleanup of a request whose time-derived correlation id collides with its
owner's — no other event removes an armed timer.  The timer cannot fire
before its deadline; when it fires while the request is still in the pending
map, the entry is removed and the caller's promise rejects with Timeout; and
once a request is past its dispatch and owns no armed timer, no event ever
arms a timer for it again.  The last conjunct is the complete disarm
characterization: a timer armed before an event and gone after it pins the
event to one of the four paths. -/
theorem c5_timeout_amended :
    requestTimeoutMs = 30000 ∧
    (∀ (st : ChannelState) (i : Nat) (r : Req),
       nthReq st.reqs i = some r → r.status = .inflight → r.special = false →
       (stepC st (.dispatchOk i)).timers =
         st.timers ++ [{ owner := i, rid := r.rid, expiry := st.now + requestTimeoutMs }]) ∧
    (∀ (st : ChannelState) (i : Nat) (tm : TimerRec),
       st.timers.find? (fun t => t.owner = i) = some tm → st.now < tm.expiry →
       stepC st (.fire i) = st) ∧
    (∀ (st : ChannelState) (i j : Nat) (tm : TimerRec) (r : Req),
       st.timers.find? (fun t => t.owner = i) = some tm → tm.expiry ≤ st.now →
       lookupA st.pending tm.rid = some j → nthReq st.reqs i = some r →
       (stepC st (.fire i)).pending = eraseA st.pending tm.rid ∧
       (stepC st (.fire i)).timers = st.timers.filter (fun t => t.owner ≠ i) ∧
       nthReq (stepC st (.fire i)).reqs i =
         some { r with status := .settled .rejectedTimeout }) ∧
    (∀ (st : ChannelState) (ev : ChEvent) (i : Nat),
       (∀ tm ∈ st.timers, tm.owner ≠ i) →
       (∀ r, nthReq st.reqs i = some r → r.status ≠ .inflight) →
       (∀ tm ∈ (stepC st ev).timers, tm.owner ≠ i)) ∧
    (∀ (st : ChannelState) (ev : ChEvent) (tm : TimerRec),
       tm ∈ st.timers → ¬ tm ∈ (stepC st ev).timers →
       (∃ (rid : Nat) (isError : Bool), ev = .inbound rid isError ∧
          st.connected = true ∧ lookupA st.pending rid = some tm.owner) ∨
       ev = .fire tm.owner ∨
       (ev = .closeEv ∧ st.connected = true ∧
          tm.owner ∈ st.pending.map (fun p => p.2)) ∨
       (∃ (k : Nat) (r : Req), ev = .dispatchFail k ∧ nthReq st.reqs k = some r ∧
          r.status = .inflight ∧ lookupA st.pending r.rid = some tm.owner)) := by
  refine ⟨rfl, ?_, ?_, ?_, ?_, ?_⟩
  · intro st i r hnth hst hsp
    simp [stepC, hnth, hst, hsp]
  · intro st i tm hfind hexp
    simp [stepC, hfind, Nat.not_le.mpr hexp]
  · intro st i j tm r hfind hexp hlk hnth
    refine ⟨by simp [stepC, hfind, hexp, hlk], by simp [stepC, hfind, hexp, hlk], ?_⟩
    have := nthReq_updStatus_eq (.settled .rejectedTimeout) hnth
    simpa [stepC, hfind, hexp, hlk] using this
  · intro st ev i hto hnf
    cases ev with
    | connectEv =>
      by_cases hc : st.connected
      · intro tm htm
        exact hto tm (by simpa [stepC, hc] using htm)
      · intro tm htm
        exact hto tm (by simpa [stepC, hc] using htm)
    | issue special =>
      by_cases hc : special ∨ st.connected
      · intro tm htm
        exact hto tm (by simpa [stepC, hc] using htm)
      · intro tm htm
        exact hto tm (by simpa [stepC, hc] using htm)
    | tick d =>
      intro tm htm
      exact hto tm htm
    | dispatchOk k =>
      cases hnth : nthReq st.reqs k with
      | none =>
        intro tm htm
        exact hto tm (by simpa [stepC, hnth] using htm)
      | some rk =>
        by_cases hst : rk.status = .inflight
        · have hki : k ≠ i := by
            intro hk
            rw [hk] at hnth
            exact hnf rk hnth hst
          by_cases hsp : rk.special
          · intro tm htm
            exact hto tm (by simpa [stepC, hnth, hst, hsp] using htm)
          · intro tm htm
            have htm' : tm ∈ st.timers ++
                [{ owner := k, rid := rk.rid, expiry := st.now + requestTimeoutMs }] := by
              simpa [stepC, hnth, hst, hsp] using htm
            rcases List.mem_append.mp htm' with hm | hm
            · exact hto tm hm
            · have : tm = { owner := k, rid := rk.rid, expiry := st.now + requestTimeoutMs } := by
                simpa using hm
              rw [this]
              exact hki
        · intro tm htm
          exact hto tm (by simpa [stepC, hnth, hst] using htm)
    | dispatchFail k =>
      cases hnth : nthReq st.reqs k with
      | none =>
        intro tm htm
        exact hto tm (by simpa [stepC, hnth] using htm)
      | some rk =>
        by_cases hst : rk.status = .inflight
        · cases hlk : lookupA st.pending rk.rid with
          | some j =>
            intro tm htm
            have htm' : tm ∈ st.timers.filter (fun t => t.owner ≠ j) := by
              simpa [stepC, hnth, hst, hlk] using htm
            exact hto tm (List.mem_filter.mp htm').1
          | none =>
            intro tm htm
            exact hto tm (by simpa [stepC, hnth, hst, hlk] using htm)
        · intro tm htm
          exact hto tm (by simpa [stepC, hnth, hst] using htm)
    | inbound rid isError =>
      by_cases hc : st.connected
      · cases hlk : lookupA st.pending rid with
        | some j =>
          intro tm htm
          have htm' : tm ∈ st.timers.filter (fun t => t.owner ≠ j) := by
            simpa [stepC, hc, hlk] using htm
          exact hto tm (List.mem_filter.mp htm').1
        | none =>
          intro tm htm
          exact hto tm (by simpa [stepC, hc, hlk] using htm)
      · intro tm htm
        exact hto tm (by simpa [stepC, hc] using htm)
    | fire k =>
      cases hfind : st.timers.find? (fun t => t.owner = k) with
      | none =>
        intro tm htm
        exact hto tm (by simpa [stepC, hfind] using htm)
      | some tmk =>
        by_cases hexp : tmk.expiry ≤ st.now
        · by_cases hlk : (lookupA st.pending tmk.rid).isSome
          · intro tm htm
            have htm' : tm ∈ st.timers.filter (fun t => t.owner ≠ k) := by
              simpa [stepC, hfind, hexp, hlk] using htm
            exact hto tm (List.mem_filter.mp htm').1
          · intro tm htm
            have htm' : tm ∈ st.timers.filter (fun t => t.owner ≠ k) := by
              simpa [stepC, hfind, hexp, hlk] using htm
            exact hto tm (List.mem_filter.mp htm').1
        · intro tm htm
          exact hto tm (by simpa [stepC, hfind, hexp] using htm)
    | closeEv =>
      by_cases hc : st.connected
      · intro tm htm
        have htm' : tm ∈ st.timers.filter
            (fun t => ¬ t.owner ∈ st.pending.map (fun p => p.2)) := by
          simpa [stepC, hc] using htm
        exact hto tm (List.mem_filter.mp htm').1
      · intro tm htm
        exact hto tm (by simpa [stepC, hc] using htm)

  · intro st ev tm htm hout
    cases ev with
    | connectEv =>
      exfalso
      apply hout
      by_cases hc : st.connected
      · simpa [stepC, hc] using htm
      · simpa [stepC, hc] using htm
    | issue special =>
      exfalso
      apply hout
      by_cases hc : special ∨ st.connected
      · simpa [stepC, hc] using htm
      · simpa [stepC, hc] using htm
    | tick d => exact absurd htm hout
    | dispatchOk k =>
      exfalso
      apply hout
      cases hnth : nthReq st.reqs k with
      | none => simpa [stepC, hnth] using htm
      | some rk =>
        by_cases hst : rk.status = .inflight
        · by_cases hsp : rk.special
          · simpa [stepC, hnth, hst, hsp] using htm
          · have htmr : (stepC st (.dispatchOk k)).timers = st.timers ++
                [{ owner := k, rid := rk.rid, expiry := st.now + requestTimeoutMs }] := by
              simp [stepC, hnth, hst, hsp]
            rw [htmr]
            exact List.mem_append_left _ htm
        · simpa [stepC, hnth, hst] using htm
    | dispatchFail k =>
      cases hnth : nthReq st.reqs k with
      | none => exact absurd (by simpa [stepC, hnth] using htm) hout
      | some rk =>
        by_cases hst : rk.status = .inflight
        · cases hlk : lookupA st.pending rk.rid with
          | some j =>
            have htmr : (stepC st (.dispatchFail k)).timers =
                st.timers.filter (fun t => t.owner ≠ j) := by
              simp [stepC, hnth, hst, hlk]
            have howner : tm.owner = j := by
              by_contra hne
              apply hout
              rw [htmr]
              exact List.mem_filter.mpr ⟨htm, by simpa using hne⟩
            refine Or.inr (Or.inr (Or.inr ⟨k, rk, rfl, hnth, hst, ?_⟩))
            rw [howner]
            exact hlk
          | none => exact absurd (by simpa [stepC, hnth, hst, hlk] using htm) hout
        · exact absurd (by simpa [stepC, hnth, hst] using htm) hout
    | inbound rid isError =>
      by_cases hc : st.connected
      · cases hlk : lookupA st.pending rid with
        | none => exact absurd (by simpa [stepC, hc, hlk] using htm) hout
        | some j =>
          have htmr : (stepC st (.inbound rid isError)).timers =
              st.timers.filter (fun t => t.owner ≠ j) := by
            simp [stepC, hc, hlk]
          have howner : tm.owner = j := by
            by_contra hne
            apply hout
            rw [htmr]
            exact List.mem_filter.mpr ⟨htm, by simpa using hne⟩
          refine Or.inl ⟨rid, isError, rfl, hc, ?_⟩
          rw [howner]
          exact hlk
      · exact absurd (by simpa [stepC, hc] using htm) hout
    | fire i =>
      cases hfind : st.timers.find? (fun t => t.owner = i) with
      | none => exact absurd (by simpa [stepC, hfind] using htm) hout
      | some tmf =>
        by_cases hexp : tmf.expiry ≤ st.now
        · have htmr : (stepC st (.fire i)).timers =
              st.timers.filter (fun t => t.owner ≠ i) := by
            by_cases hlk : (lookupA st.pending tmf.rid).isSome
            · simp [stepC, hfind, hexp, hlk]
            · simp [stepC, hfind, hexp, hlk]
          have howner : tm.owner = i := by
            by_contra hne
            apply hout
            rw [htmr]
            exact List.mem_filter.mpr ⟨htm, by simpa using hne⟩
          exact Or.inr (Or.inl (by rw [howner]))
        · exact absurd (by simpa [stepC, hfind, hexp] using htm) hout
    | closeEv =>
      by_cases hc : st.connected
      · have htmr : (stepC st .closeEv).timers = st.timers.filter
            (fun t => ¬ t.owner ∈ st.pending.map (fun p => p.2)) := by
          simp [stepC, hc]
        have howner : tm.owner ∈ st.pending.map (fun p => p.2) := by
          by_contra hno
          apply hout
          rw [htmr]
          exact List.mem_filter.mpr ⟨htm, by simpa using hno⟩
        exact Or.inr (Or.inr (Or.inl ⟨rfl, hc, howner⟩))
      · exact absurd (by simpa [stepC, hc] using htm) hout

/-- C5 (witness): the amended theorem applied at concrete inputs: a send whose
dispatch succeeds arms a 30000 ms timer; that timer is inert before its
deadline; once the clock passes the deadline its firing empties the pending
map and settles the request with the Timeout rejection; and the disarm
characterization applied to a collision trace pins the disarming of request
1's timer on the dispatch failure of the id-colliding request 2. -/
theorem c5_timeout_amended_witness :
    (stepC (runC (initC 0) [.connectEv, .issue false]) (.dispatchOk 1)).timers =
      [{ owner := 1, rid := 0, expiry := 30000 }] ∧
    stepC (runC (initC 0) [.connectEv, .issue false, .dispatchOk 1]) (.fire 1) =
      runC (initC 0) [.connectEv, .issue false, .dispatchOk 1] ∧
    nthReq (stepC (runC (initC 0)
        [.connectEv, .issue false, .dispatchOk 1, .tick 30000]) (.fire 1)).reqs 1 =
      some { rid := 0, special := false, status := .settled .rejectedTimeout } ∧
    ((∃ (rid : Nat) (isError : Bool),
        ChEvent.dispatchFail 2 = ChEvent.inbound rid isError ∧
        (runC (initC 0)
          [.connectEv, .issue false, .dispatchOk 1, .issue false]).connected = true ∧
        lookupA (runC (initC 0)
          [.connectEv, .issue false, .dispatchOk 1, .issue false]).pending rid = some 1) ∨
     ChEvent.dispatchFail 2 = ChEvent.fire 1 ∨
     (ChEvent.dispatchFail 2 = ChEvent.closeEv ∧
      (runC (initC 0)
        [.connectEv, .issue false, .dispatchOk 1, .issue false]).connected = true ∧
      1 ∈ (runC (initC 0)
        [.connectEv, .issue false, .dispatchOk 1, .issue false]).pending.map
          (fun p => p.2)) ∨
     (∃ (k : Nat) (r : Req), ChEvent.dispatchFail 2 = ChEvent.dispatchFail k ∧
        nthReq (runC (initC 0)
          [.connectEv, .issue false, .dispatchOk 1, .issue false]).reqs k = some r ∧
        r.status = .inflight ∧
        lookupA (runC (initC 0)
          [.connectEv, .issue false, .dispatchOk 1, .issue false]).pending r.rid =
          some 1)) := by
  refine ⟨?_, ?_, ?_, ?_⟩
  · have h := c5_timeout_amended.2.1 (runC (initC 0) [.connectEv, .issue false]) 1
      { rid := 0, special := false, status := .inflight }
      (by decide) (by decide) (by decide)
    simpa using h
  · exact c5_timeout_amended.2.2.1 (runC (initC 0) [.connectEv, .issue false, .dispatchOk 1])
      1 { owner := 1, rid := 0, expiry := 30000 } (by decide) (by decide)
  · have h := (c5_timeout_amended.2.2.2.1 (runC (initC 0)
        [.connectEv, .issue false, .dispatchOk 1, .tick 30000]) 1 1
        { owner := 1, rid := 0, expiry := 30000 }
        { rid := 0, special := false, status := .waiting }
        (by decide) (by decide) (by decide) (by decide)).2.2
    simpa using h
  · exact c5_timeout_amended.2.2.2.2.2
      (runC (initC 0) [.connectEv, .issue false, .dispatchOk 1, .issue false])
      (.dispatchFail 2) { owner := 1, rid := 0, expiry := 30000 }
      (by decide) (by decide)

/-- C10 (counterexample): when the failing request's time-derived correlation
id collides with a pending request's id (two sends in the same millisecond),
the dispatch-failure cleanup deletes the colliding pending entry and disarms
its timer, so the channel's pending state is not left unchanged — and the
orphaned request (index 1) is left waiting forever. -/
theorem c10_counterexample_collision :
    (runC (initC 0) [.connectEv, .issue false, .dispatchOk 1, .issue false]).pending =
      [(0, 1)] ∧
    (runC (initC 0) [.connectEv, .issue false, .dispatchOk 1, .issue false,
        .dispatchFail 2]).pending = [] ∧
    (runC (initC 0) [.connectEv, .issue false, .dispatchOk 1, .issue false,
        .dispatchFail 2]).timers = [] ∧
    nthReq (runC (initC 0) [.connectEv, .issue false, .dispatchOk 1, .issue false,
        .dispatchFail 2]).reqs 1 =
      some { rid := 0, special := false, status := .waiting } := by
  decide

/-- C10 (amended): for every call whose outbound dispatch fails and whose
correlation id does not collide with a pending request's id, the promise
rejects with the dispatch error, the pending map holds no entry for that id
afterwards, no timer for it is armed, and the channel's pending state —
pending map, timers, connection flag and clock — is left unchanged. -/
theorem c10_dispatch_failure_amended : ∀ (st : ChannelState) (i : Nat) (r : Req),
    nthReq st.reqs i = some r → r.status = .inflight →
    lookupA st.pending r.rid = none →
    (stepC st (.dispatchFail i)).pending = st.pending ∧
    (stepC st (.dispatchFail i)).timers = st.timers ∧
    (stepC st (.dispatchFail i)).connected = st.connected ∧
    (stepC st (.dispatchFail i)).now = st.now ∧
    nthReq (stepC st (.dispatchFail i)).reqs i =
      some { r with status := .settled .rejectedDispatch } ∧
    lookupA (stepC st (.dispatchFail i)).pending r.rid = none := by
  intro st i r hnth hst hlk
  refine ⟨by simp [stepC, hnth, hst, hlk], by simp [stepC, hnth, hst, hlk],
    by simp [stepC, hnth, hst, hlk], by simp [stepC, hnth, hst, hlk], ?_, ?_⟩
  · have := nthReq_updStatus_eq (.settled .rejectedDispatch) hnth
    simpa [stepC, hnth, hst, hlk] using this
  · have hpend : (stepC st (.dispatchFail i)).pending = st.pending := by
      simp [stepC, hnth, hst, hlk]
    rw [hpend]
    exact hlk

/-- C10 (witness): the amended theorem applied to a channel with one pending
request (id 0) and a second in-flight request with the distinct id 5 whose
dispatch fails: the pending map and timers are untouched and the failing
request settles with the dispatch rejection. -/
theorem c10_dispatch_failure_amended_witness :
    (stepC (runC (initC 0)
        [.connectEv, .issue false, .dispatchOk 1, .tick 5, .issue false])
      (.dispatchFail 2)).pending =
      (runC (initC 0)
        [.connectEv, .issue false, .dispatchOk 1, .tick 5, .issue false]).pending ∧
    nthReq (stepC (runC (initC 0)
        [.connectEv, .issue false, .dispatchOk 1, .tick 5, .issue false])
      (.dispatchFail 2)).reqs 2 =
      some { rid := 5, special := false, status := .settled .rejectedDispatch } := by
  constructor
  · exact (c10_dispatch_failure_amended (runC (initC 0)
      [.connectEv, .issue false, .dispatchOk 1, .tick 5, .issue false]) 2
      { rid := 5, special := false, status := .inflight }
      (by decide) (by decide) (by decide)).1
  · have h := (c10_dispatch_failure_amended (runC (initC 0)
      [.connectEv, .issue false, .dispatchOk 1, .tick 5, .issue false]) 2
      { rid := 5, special := false, status := .inflight }
      (by decide) (by decide) (by decide)).2.2.2.2.1
    simpa using h

/-- C1 (code violation at a concrete input): `reloadAllTools` iterates every
server of the `GET /servers` listing — its own doc comment says "all connected
MCP servers", and it even names the listing `connectedServers` — and then
registers the fetched enabled tools unconditionally.  Starting from a state
satisfying the invariant (nothing registered, nothing connected), one reload
of a registry server "s" that is not connected registers the tool id
`mcp_s_t` although "s" is not in the connected set, violating the
registered-iff-connected-and-enabled invariant. -/
theorem c1_reload_registers_disconnected_server :
    let st0 : McpState :=
      { mcpEnabled := true, registry := [("s", { typ := .stdio })],
        connected := [], serverTools := [] }
    let res := reloadAllTools st0 false
      [({ name := "s", config := { typ := .stdio }, enabled := true },
        { startOk := true, stopOk := true, reloadOk := true,
          resp := some [{ name := "t", enabled := some true }] })]
    HostCall.register "s" "t" ∈ res.2.1 ∧
      lookupA res.1.connected "s" = none ∧
      toolId "s" "t" ∈ applyCalls [] res.2.1 ∧
      res.2.2 = true := by
  decide

/-- C3 (counterexample): when the remote `/stop` call fails, `disconnect`
returns `false` and performs no local cleanup at all: the server stays in the
connected set, the tool cache entry stays, no unregister call is issued, and
the previously registered tool id `mcp_s_t` remains registered — refuting
"zero tools of that server remain registered and the connection state is
removed" for the failure case. -/
theorem c3_counterexample_failed_stop :
    let st0 : McpState :=
      { mcpEnabled := true, registry := [],
        connected := [("s", { typ := .stdio })],
        serverTools := [("s", [{ name := "t", enabled := some true }])] }
    disconnect st0 "s" false = (st0, [], false) ∧
      lookupA (disconnect st0 "s" false).1.connected "s" = some { typ := .stdio } ∧
      toolId "s" "t" ∈ applyCalls [toolId "s" "t"] (disconnect st0 "s" false).2.1 := by
  decide

/-- C3 (amended): `disconnect` guarantees local cleanup only on a successful
remote stop: when the `/stop` call reports success it removes the server from
the connected set, drops its cache entry, and unregisters every cached tool
(so none of them remains in the host's registered set); when the stop call
fails or throws, it returns `false` and leaves the connected set, the cache
and the host registrations completely unchanged. -/
theorem c3_disconnect_cleanup_amended : ∀ (st : McpState) (name : String),
    disconnect st name false = (st, [], false) ∧
    ((disconnect st name true).2.2 = true ∧
     lookupA (disconnect st name true).1.connected name = none ∧
     lookupA (disconnect st name true).1.serverTools name = none ∧
     (disconnect st name true).2.1 =
       ((lookupA st.serverTools name).getD []).map
         (fun t => HostCall.unregister name t.name) ∧
     ∀ (r : List String) (t : McpTool), t ∈ (lookupA st.serverTools name).getD [] →
       ¬ toolId name t.name ∈ applyCalls r (disconnect st name true).2.1) := by
  intro st name
  have hcalls : (disconnect st name true).2.1 =
      ((lookupA st.serverTools name).getD []).map
        (fun t => HostCall.unregister name t.name) := by
    simp [disconnect, unregisterServerTools]
  refine ⟨by simp [disconnect], by simp [disconnect, unregisterServerTools],
    ?_, ?_, hcalls, ?_⟩
  · show lookupA (eraseA st.connected name) name = none
    exact lookupA_eraseA_self _ _
  · show lookupA (eraseA st.serverTools name) name = none
    exact lookupA_eraseA_self _ _
  · intro r t ht
    rw [hcalls]
    exact applyCalls_unregs_removes ht

/-- C3 (witness): the amended theorem applied to a concrete connected server
with one cached, registered tool: a successful disconnect leaves `mcp_s_t`
out of the registered set. -/
theorem c3_disconnect_cleanup_amended_witness :
    ¬ toolId "s" "t" ∈ applyCalls [toolId "s" "t"]
      (disconnect
        { mcpEnabled := true, registry := [],
          connected := [("s", { typ := .stdio })],
          serverTools := [("s", [{ name := "t", enabled := some true }])] }
        "s" true).2.1 := by
  exact (c3_disconnect_cleanup_amended
      { mcpEnabled := true, registry := [],
        connected := [("s", { typ := .stdio })],
        serverTools := [("s", [{ name := "t", enabled := some true }])] }
      "s").2.2.2.2.2 [toolId "s" "t"]
    { name := "t", enabled := some true } (by decide)

/-- C6 (counterexample): the per-flip register/unregister calls are guarded by
"MCP enabled and server connected": for a server that is not connected,
`updateDisabledTools` flips tool "b" from disabled to enabled in the cache yet
issues no register call at all — refuting "registers exactly the tools whose
enabled state flips false to true" as stated for every server. -/
theorem c6_counterexample_disconnected_flip :
    let st0 : McpState :=
      { mcpEnabled := true, registry := [], connected := [],
        serverTools := [("srv", [{ name := "a", enabled := some true },
                                 { name := "b", enabled := some false }])] }
    (updateDisabledTools st0 "srv" [] true).2.1 = [] ∧
      lookupA (updateDisabledTools st0 "srv" [] true).1.serverTools "srv" =
        some [{ name := "a", enabled := some true },
              { name := "b", enabled := some true }] := by
  decide

/-- C6 (amended): provided MCP is enabled and the server is connected,
`updateDisabledTools` issues exactly one call per enabled-state flip — an
unregister for each true-to-false flip, a register for each false-to-true flip,
in tool order, and nothing for unaffected tools — and rewrites every cached
flag to its new value; when MCP is disabled or the server is not connected it
issues no host call at all; and in every case a second application with the
same disabled set issues no calls (idempotence). -/
theorem c6_minimal_diff_amended :
    (∀ (st : McpState) (s : String) (disabled : List String) (tools : List McpTool),
       st.mcpEnabled = true → isConnected st s = true →
       lookupA st.serverTools s = some tools →
       (updateDisabledTools st s disabled true).2.1 =
         tools.filterMap (fun t =>
           if t.enabled = some true ∧ t.name ∈ disabled then
             some (HostCall.unregister s t.name)
           else if ¬ t.enabled = some true ∧ ¬ t.name ∈ disabled then
             some (HostCall.register s t.name)
           else none) ∧
       lookupA (updateDisabledTools st s disabled true).1.serverTools s =
         some (tools.map
           (fun t => { t with enabled := some (decide (¬ t.name ∈ disabled)) }))) ∧
    (∀ (st : McpState) (s : String) (disabled : List String),
       st.mcpEnabled = false ∨ isConnected st s = false →
       (updateDisabledTools st s disabled true).2.1 = []) ∧
    (∀ (st : McpState) (s : String) (disabled : List String),
       (updateDisabledTools
         (updateDisabledTools st s disabled true).1 s disabled true).2.1 = []) := by
  refine ⟨?_, ?_, ?_⟩
  · intro st s disabled tools hmcp hconn hl
    constructor
    · simp [updateDisabledTools, hl, updateToolsLoop_spec, hmcp, hconn]
    · simp [updateDisabledTools, hl, updateToolsLoop_spec, hmcp, hconn,
        lookupA_setA_self]
  · intro st s disabled h
    cases hl : lookupA st.serverTools s with
    | none => simp [updateDisabledTools, hl]
    | some tools =>
      rcases h with h | h <;>
        simp [updateDisabledTools, hl, updateToolsLoop_spec, h]
  · intro st s disabled
    cases hl : lookupA st.serverTools s with
    | none =>
      have h1 : (updateDisabledTools st s disabled true).1 = st := by
        simp [updateDisabledTools, hl]
      rw [h1]
      simp [updateDisabledTools, hl]
    | some tools =>
      have h1 : lookupA (updateDisabledTools st s disabled true).1.serverTools s =
          some (tools.map
            (fun t => { t with enabled := some (decide (¬ t.name ∈ disabled)) })) := by
        simp [updateDisabledTools, hl, updateToolsLoop_spec, lookupA_setA_self]
      have key : ∀ (st' : McpState) (tools0 : List McpTool),
          lookupA st'.serverTools s = some (tools0.map
            (fun t => { t with enabled := some (decide (¬ t.name ∈ disabled)) })) →
          (updateDisabledTools st' s disabled true).2.1 = [] := by
        intro st' tools0 hl'
        cases hdr : (st'.mcpEnabled && isConnected st' s) with
        | false => simp [updateDisabledTools, hl', updateToolsLoop_spec, hdr]
        | true =>
          simp only [updateDisabledTools, hl', updateToolsLoop_spec, hdr, if_true]
          rw [List.filterMap_map]
          rw [List.filterMap_eq_nil_iff]
          intro t ht
          by_cases hd : t.name ∈ disabled <;> simp [Function.comp, hd]
      exact key _ tools h1

/-- C6 (witness): the spec's own scenario: server "srv" is connected with
tools a enabled and b disabled; clearing the disabled set registers exactly b
once and touches a not at all, and a second identical application issues no
calls. -/
theorem c6_minimal_diff_amended_witness :
    (updateDisabledTools
      { mcpEnabled := true, registry := [],
        connected := [("srv", { typ := .stdio })],
        serverTools := [("srv", [{ name := "a", enabled := some true },
                                 { name := "b", enabled := some false }])] }
      "srv" [] true).2.1 = [HostCall.register "srv" "b"] ∧
    (updateDisabledTools
      (updateDisabledTools
        { mcpEnabled := true, registry := [],
          connected := [("srv", { typ := .stdio })],
          serverTools := [("srv", [{ name := "a", enabled := some true },
                                   { name := "b", enabled := some false }])] }
        "srv" [] true).1 "srv" [] true).2.1 = [] := by
  constructor
  · have h := (c6_minimal_diff_amended.1
      { mcpEnabled := true, registry := [],
        connected := [("srv", { typ := .stdio })],
        serverTools := [("srv", [{ name := "a", enabled := some true },
                                 { name := "b", enabled := some false }])] }
      "srv" []
      [{ name := "a", enabled := some true }, { name := "b", enabled := some false }]
      (by decide) (by decide) (by decide)).1
    rw [h]
    decide
  · exact c6_minimal_diff_amended.2.2
      { mcpEnabled := true, registry := [],
        connected := [("srv", { typ := .stdio })],
        serverTools := [("srv", [{ name := "a", enabled := some true },
                                 { name := "b", enabled := some false }])] }
      "srv" []

/-- C7 (counterexample): the result of `addServer` is a bare boolean that
carries no connection warning: when the POST persists the config but the
auto-connect fails, the call returns the very same `true` as a fully
successful add — the two outcomes are indistinguishable in the operation's
result, even though the server never entered the connected set. -/
theorem c7_counterexample_no_warning :
    let st0 : McpState :=
      { mcpEnabled := true, registry := [], connected := [], serverTools := [] }
    (addServer st0 "s" { typ := .stdio } true false none).2.2 = true ∧
      (addServer st0 "s" { typ := .stdio } true true none).2.2 = true ∧
      (addServer st0 "s" { typ := .stdio } true false none).1.connected = [] := by
  decide

/-- C7 (amended): an add whose POST succeeds but whose auto-connect fails is
still reported as a successful add: it returns `true`, the server is present
in the registry listing, and the connected set is untouched; but the connect
failure is only logged to the console — the add result is identical to the
full-success result and carries no distinguishable connection warning. -/
theorem c7_add_success_amended : ∀ (st : McpState) (name : String)
    (cfg : ServerConfig) (resp : Option (List McpTool)),
    st.mcpEnabled = true →
    (addServer st name cfg true false resp).2.2 = true ∧
    lookupA (addServer st name cfg true false resp).1.registry name = some cfg ∧
    (addServer st name cfg true false resp).1.connected = st.connected ∧
    (addServer st name cfg true false resp).2.2 =
      (addServer st name cfg true true resp).2.2 := by
  intro st name cfg resp hmcp
  by_cases hcache : (lookupA st.serverTools name).isSome
  · refine ⟨?_, ?_, ?_, ?_⟩ <;>
      simp [addServer, connect, fetchTools, registerTools_fst, hmcp, hcache,
        lookupA_setA_self]
  · refine ⟨?_, ?_, ?_, ?_⟩ <;>
      simp [addServer, connect, fetchTools, registerTools_fst, hmcp, hcache,
        lookupA_setA_self]

/-- C7 (witness): the amended theorem at a concrete state: the add reports
success, the server is listed, and the connected set stays empty. -/
theorem c7_add_success_amended_witness :
    (addServer
      { mcpEnabled := true, registry := [], connected := [], serverTools := [] }
      "s" { typ := .stdio } true false none).2.2 = true ∧
    lookupA (addServer
      { mcpEnabled := true, registry := [], connected := [], serverTools := [] }
      "s" { typ := .stdio } true false none).1.registry "s" =
      some { typ := .stdio } := by
  constructor
  · exact (c7_add_success_amended
      { mcpEnabled := true, registry := [], connected := [], serverTools := [] }
      "s" { typ := .stdio } none (by decide)).1
  · exact (c7_add_success_amended
      { mcpEnabled := true, registry := [], connected := [], serverTools := [] }
      "s" { typ := .stdio } none (by decide)).2.1

/-- C8: `getServerTools` returns the cached list without fetching when one
exists; otherwise it fetches and always caches the result (the empty list on a
failed or empty fetch), returning the fetched list exactly when it is
non-empty.  The enabled default comes from the remote side, here
`remoteListTools` (modelled from the spec): a never-disabled tool arrives with
its enabled flag true and is therefore picked up by `registerTools`. -/
theorem c8_getServerTools_cache_and_default :
    (∀ (st : McpState) (s : String) (resp : Option (List McpTool))
       (ts : List McpTool),
       lookupA st.serverTools s = some ts →
       getServerTools st s resp = (st, false, some ts)) ∧
    (∀ (st : McpState) (s : String) (ts : List McpTool),
       lookupA st.serverTools s = none → ts ≠ [] →
       (getServerTools st s (some ts)).2.1 = true ∧
       (getServerTools st s (some ts)).2.2 = some ts ∧
       lookupA (getServerTools st s (some ts)).1.serverTools s = some ts) ∧
    (∀ (st : McpState) (s : String),
       lookupA st.serverTools s = none →
       (getServerTools st s none).2.1 = true ∧
       (getServerTools st s none).2.2 = none ∧
       lookupA (getServerTools st s none).1.serverTools s = some []) ∧
    (∀ (names dis : List String) (n : String), n ∈ names → ¬ n ∈ dis →
       ({ name := n, enabled := some true } : McpTool) ∈
         remoteListTools names false dis) ∧
    (∀ (st : McpState) (s : String) (names dis : List String) (n : String),
       lookupA st.serverTools s = some (remoteListTools names false dis) →
       n ∈ names → ¬ n ∈ dis →
       HostCall.register s n ∈ (registerTools st s).2) := by
  refine ⟨?_, ?_, ?_, ?_, ?_⟩
  · intro st s resp ts hl
    simp [getServerTools, hl]
  · intro st s ts hl hne
    refine ⟨?_, ?_, ?_⟩ <;> simp [getServerTools, fetchTools, hl, hne, lookupA_setA_self]
  · intro st s hl
    refine ⟨?_, ?_, ?_⟩ <;> simp [getServerTools, fetchTools, hl, lookupA_setA_self]
  · intro names dis n hmem hdis
    exact List.mem_map.mpr ⟨n, hmem, by simp [hdis]⟩
  · intro st s names dis n hl hmem hdis
    have hin : ({ name := n, enabled := some true } : McpTool) ∈
        remoteListTools names false dis :=
      List.mem_map.mpr ⟨n, hmem, by simp [hdis]⟩
    exact mem_registerTools hl hin rfl

/-- C8 (witness): the theorem applied at concrete inputs: a cached server is
answered from the cache unchanged, and a freshly fetched never-disabled tool
"echo" is enabled and registered. -/
theorem c8_getServerTools_cache_and_default_witness :
    getServerTools
      { mcpEnabled := true, registry := [], connected := [],
        serverTools := [("srv", [{ name := "a", enabled := some true }])] }
      "srv" none =
      ({ mcpEnabled := true, registry := [], connected := [],
         serverTools := [("srv", [{ name := "a", enabled := some true }])] },
       false, some [{ name := "a", enabled := some true }]) ∧
    HostCall.register "x" "echo" ∈
      (registerTools
        { mcpEnabled := true, registry := [], connected := [],
          serverTools := [("x", remoteListTools ["echo"] false [])] } "x").2 := by
  constructor
  · exact c8_getServerTools_cache_and_default.1
      { mcpEnabled := true, registry := [], connected := [],
        serverTools := [("srv", [{ name := "a", enabled := some true }])] }
      "srv" none [{ name := "a", enabled := some true }] (by decide)
  · exact c8_getServerTools_cache_and_default.2.2.2.2
      { mcpEnabled := true, registry := [], connected := [],
        serverTools := [("x", remoteListTools ["echo"] false [])] }
      "x" ["echo"] [] "echo" (by decide) (by decide) (by decide)

/-- C9: `callTool` on a server that is not in the connected set rejects with
the not-connected error before issuing any HTTP dispatch (the emitted
dispatch list is empty) and leaves the state — connected map and tool cache —
completely unchanged. -/
theorem c9_callTool_not_connected : ∀ (st : McpState) (serverName toolName : String)
    (respOk : Bool) (result : String),
    isConnected st serverName = false →
    callTool st serverName toolName respOk result =
      (st, [], Except.error ("MCP server " ++ serverName ++ " is not connected.")) := by
  intro st s t ok res h
  simp [callTool, h]

/-- C9 (witness): the theorem applied to a concrete state with no connected
servers: the call errors without dispatching and the state is returned
untouched. -/
theorem c9_callTool_not_connected_witness :
    callTool
      { mcpEnabled := true, registry := [("s", { typ := .stdio })],
        connected := [], serverTools := [] }
      "s" "t" true "out" =
      ({ mcpEnabled := true, registry := [("s", { typ := .stdio })],
         connected := [], serverTools := [] }, [],
       Except.error ("MCP server " ++ "s" ++ " is not connected.")) := by
  exact c9_callTool_not_connected
    { mcpEnabled := true, registry := [("s", { typ := .stdio })],
      connected := [], serverTools := [] }
    "s" "t" true "out" (by decide)
